import Mathlib

/-!
# RoboTA automated feedback: annotation parser and validator dispatch

A shallow embedding of `robota_autofeedback/robota.js`.

* A JavaScript string is a list of characters (`Str`).
* JavaScript `null` and `undefined` are both `Option.none`; the source only
  ever tests them with `== null` and `!= null`, which do not tell them apart.
* `console.log` appends one line to an explicit console, which is threaded
  through every function that can log.
* The `do ... while` loop of `parse_annotation_tokens` is a step function
  `loop_iteration` on an explicit `LoopState`; `parse_loop` iterates it under
  a fuel bound and answers `none` when the fuel runs out before the loop
  has left.
* A notebook code cell is the text it holds: `get_text()` reads it and
  `set_text(t)` replaces it. `execute_cell_annotations` returns the cell it
  leaves, together with the implicit global `content` and the console.
-/

namespace Robota

/-- A JavaScript string. -/
abbrev Str := List Char

/-! ## String primitives used by the source -/

/-- Worker of `js_split`: `skip` counts the separator characters still to be
dropped after a match, `acc` holds the current fragment in reverse. -/
def js_split_go (sep : Str) : Nat → Str → Str → List Str
  | _, [], acc => [acc.reverse]
  | k + 1, _ :: cs, acc => js_split_go sep k cs acc
  | 0, c :: cs, acc =>
    if sep.isPrefixOf (c :: cs) then
      acc.reverse :: js_split_go sep (sep.length - 1) cs []
    else
      js_split_go sep 0 cs (c :: acc)

/-- `String.prototype.split(sep)` for a non-empty separator string: the
fragments between the successive non-overlapping occurrences of `sep`,
searched left to right. The result always has at least one fragment. -/
def js_split (sep : Str) (s : Str) : List Str :=
  js_split_go sep 0 s []

/-- `String.prototype.replace(pat, rep)` for a non-empty string pattern:
only the first occurrence of `pat` is replaced. -/
def js_replace (pat rep : Str) : Str → Str
  | [] => []
  | c :: cs =>
    if pat.isPrefixOf (c :: cs) then rep ++ (c :: cs).drop pat.length
    else c :: js_replace pat rep cs

/-- The characters removed by `String.prototype.trim`: ECMAScript WhiteSpace
and LineTerminator code points. -/
def js_is_whitespace (c : Char) : Bool :=
  let n := c.toNat
  n = 0x09 || n = 0x0A || n = 0x0B || n = 0x0C || n = 0x0D || n = 0x20 ||
  n = 0xA0 || n = 0x1680 || (0x2000 ≤ n && n ≤ 0x200A) || n = 0x2028 ||
  n = 0x2029 || n = 0x202F || n = 0x205F || n = 0x3000 || n = 0xFEFF

/-- `String.prototype.trim`. -/
def js_trim (s : Str) : Str :=
  ((s.dropWhile js_is_whitespace).reverse.dropWhile js_is_whitespace).reverse

/-- `Array.prototype.join(sep)` on an array of strings. -/
def js_join (sep : Str) : List Str → Str
  | [] => []
  | [x] => x
  | x :: y :: rest => x ++ sep ++ js_join sep (y :: rest)

/-- String conversion of a boolean inside a template literal. -/
def js_bool_to_string (b : Bool) : Str :=
  if b then ['t', 'r', 'u', 'e'] else ['f', 'a', 'l', 's', 'e']

/-- String conversion of a non-negative integer inside a template literal. -/
def js_nat_to_string (n : Nat) : Str :=
  (Nat.repr n).toList

/-! ## Module-level data -/

/-- Lines annotated with this marker are validated (`robota_suffix`). -/
def robota_suffix : Str := ['!', 'r', 'o', 'b', 'o', 't', 'a']

/-- One entry of the `validators` array. `func` receives the line and the
spread parameters; `description` and `example` are documentation only. -/
structure Validator where
  name : Str
  description : Str
  num_inputs : Nat
  operator : Str
  example_text : Str
  func : Str → List Str → Bool

/-- The `func` of the validator `different`: `function (line, value)` called
as `f(line, ...parameters)`. A missing `value` is `undefined`, which is never
strictly equal to a string; parameters beyond the first are ignored. -/
def different_func (line : Str) : List Str → Bool
  | [] => true
  | value :: _ => decide (line ≠ value)

/-- The only shipped validator. -/
def different : Validator where
  name := "different".toList
  description := "Checks that the value of the line is different from something.".toList
  num_inputs := 1
  operator := ['!', '=']
  example_text := "!=:1".toList
  func := different_func

/-- The module-level array `validators`. -/
def validators : List Validator := [different]

/-- The objects produced by `parse_annotation_tokens`. -/
structure GeneratedObject where
  validator_function : Str → List Str → Bool
  parameters : List Str
  name : Str

/-- The objects produced by `executor`. -/
structure ValidationResult where
  is_valid : Bool
  message : Str
deriving DecidableEq, Repr

/-! ## `parse_annotation_tokens` -/

/-- The variables of `parse_annotation_tokens` between two iterations of its
loop, together with the console. -/
structure LoopState where
  tokens : List Str
  objects : List GeneratedObject
  validator : Option Validator
  parameters : List Str
  console : List Str

/-- What one iteration of the loop does: leave the function with a value, or
go round again. -/
inductive LoopStep where
  | returned (objects : List GeneratedObject) (console : List Str)
  | again (st : LoopState)

/-- `validators.find(v => v.operator === next_token)` over a registry.
`next_token` is `none` when `shift` found the array empty. -/
def find_validator (registry : List Validator) (next_token : Option Str) :
    Option Validator :=
  registry.find? (fun v => decide (some v.operator = next_token))

/-- The loop test `next_token != null || validator != null`, and what follows
from it: another iteration, or the `return objects` after the loop. -/
def loop_test (next_token : Option Str) (st : LoopState) : LoopStep :=
  if next_token.isSome || st.validator.isSome then .again st
  else .returned st.objects st.console

/-- The text logged when a group has the wrong number of parameters. -/
def skipping_message (validator : Validator) (parameters : List Str) : Str :=
  validator.operator ++ " expects ".toList ++ js_nat_to_string validator.num_inputs ++
    " inputs,".toList ++ "but ".toList ++ js_nat_to_string parameters.length ++
    " were found. Skipping.".toList

/-- One pass through the body of the `do ... while` loop, followed by the loop
test. -/
def loop_iteration (registry : List Validator) (st : LoopState) : LoopStep :=
  -- next_token = tokens.shift();
  let next_token := st.tokens.head?
  let st := { st with tokens := st.tokens.tail }
  let next_validator := find_validator registry next_token
  match st.validator, next_validator with
  | none, none =>
    -- First token is not a validator, can't do anything
    .returned st.objects (st.console ++ ["Invalid start character!".toList])
  | none, some nv =>
    -- First character is a validator, assign it
    loop_test next_token { st with validator := some nv }
  | some v, _ =>
    if next_validator.isSome || next_token.isNone then
      if st.parameters.length ≠ v.num_inputs then
        -- console.log(...); continue
        loop_test next_token
          { st with console := st.console ++ [skipping_message v st.parameters] }
      else
        loop_test next_token
          { st with
            objects := st.objects ++
              [{ validator_function := v.func, parameters := st.parameters, name := v.name }]
            validator := next_validator
            parameters := [] }
    else
      match next_token with
      | some t => loop_test next_token { st with parameters := st.parameters ++ [t] }
      | none => loop_test next_token st

/-- The loop, cut off after `fuel` iterations. -/
def parse_loop (registry : List Validator) : Nat → LoopState → Option (List GeneratedObject × List Str)
  | 0, _ => none
  | fuel + 1, st =>
    match loop_iteration registry st with
    | .returned objects console => some (objects, console)
    | .again st' => parse_loop registry fuel st'

/-- The state in which the loop is entered. -/
def initial_state (console : List Str) (tokens : List Str) : LoopState :=
  { tokens := tokens, objects := [], validator := none, parameters := [], console := console }

/-- The state of the loop after `n` iterations, when it has not left before. -/
def loop_state_after (registry : List Validator) : Nat → LoopState → Option LoopState
  | 0, st => some st
  | n + 1, st =>
    match loop_iteration registry st with
    | .returned _ _ => none
    | .again st' => loop_state_after registry n st'

/-- `parse_annotation_tokens(tokens)` against a registry, under a fuel bound
on the number of loop iterations. -/
def parse_annotation_tokens_in (registry : List Validator) (fuel : Nat) (console : List Str)
    (tokens : List Str) : Option (List GeneratedObject × List Str) :=
  parse_loop registry fuel (initial_state console tokens)

/-- `parse_annotation_tokens(tokens)` with the shipped `validators`. -/
def parse_annotation_tokens (fuel : Nat) (console : List Str) (tokens : List Str) :
    Option (List GeneratedObject × List Str) :=
  parse_annotation_tokens_in validators fuel console tokens

/-! ## `validate_line` -/

/-- The `executor` closure of `validate_line`. -/
def executor (line : Str) (f : Str → List Str → Bool) (parameters : List Str) (name : Str) :
    ValidationResult :=
  let is_valid := f line parameters
  { is_valid := is_valid
    message := "Validator ".toList ++ name ++ " gave result ".toList ++
      js_bool_to_string is_valid ++ " for parameters ".toList ++
      js_join [','] parameters ++ ['.'] }

/-- `annotated_line.split(robota_suffix)`. -/
def line_tokens (annotated_line : Str) : List Str :=
  js_split robota_suffix annotated_line

/-- `line_tokens[0].replace("#", "").trim()`. -/
def line_input (annotated_line : Str) : Str :=
  js_trim (js_replace ['#'] [] ((line_tokens annotated_line).headD []))

/-- `line_tokens.pop()`. -/
def robota_annotation (annotated_line : Str) : Str :=
  (line_tokens annotated_line).getLastD []

/-- ` robota_annotation.split(":").filter(t => t !== "")`. -/
def annotation_tokens (annotation_text : Str) : List Str :=
  (js_split [':'] annotation_text).filter (fun t => decide (t ≠ []))

/-- `validate_line(annotated_line)`: the validation results, and the console
after the call. -/
def validate_line (fuel : Nat) (console : List Str) (annotated_line : Str) :
    Option (List ValidationResult × List Str) :=
  match parse_annotation_tokens fuel console (annotation_tokens ( robota_annotation annotated_line)) with
  | none => none
  | some (objects, console') =>
    some (objects.map (fun v =>
      executor (line_input annotated_line) v.validator_function v.parameters v.name), console')


/-! ## `execute_cell_annotations` -/

/-- `String.prototype.includes(pat)`: `pat` occurs somewhere in the string. -/
def js_includes (pat : Str) : Str → Bool
  | [] => pat.isPrefixOf []
  | c :: cs => pat.isPrefixOf (c :: cs) || js_includes pat cs

/-- The local `feedback_separator` of `execute_cell_annotations`. -/
def feedback_separator : Str := "\n# **Feedback**\n".toList

/-- A notebook code cell, as far as the source uses it: `get_text()` reads the
field `text`, `set_text(t)` replaces it. -/
structure CodeCell where
  text : Str
deriving DecidableEq, Repr

/-- `annotated_lines.map(l => validate_line(l))`: the calls are made in order
and each starts from the console the previous one left. -/
def validate_lines (fuel : Nat) : List Str → List Str →
    Option (List (List ValidationResult) × List Str)
  | [], console => some ([], console)
  | l :: ls, console =>
    match validate_line fuel console l with
    | none => none
    | some (r, console') =>
      match validate_lines fuel ls console' with
      | none => none
      | some (rs, console'') => some (r :: rs, console'')

/-- What a call of `execute_cell_annotations` leaves behind: the cell, the
implicit global `content` (assigned without a declaration), and the console. -/
structure CellRun where
  code_cell : CodeCell
  content : Str
  console : List Str
deriving DecidableEq, Repr

/-- The two nested `forEach` of `execute_cell_annotations`: each result appends
`"# " + vr.message + "\n"` to the text of the cell. -/
def append_feedback (code_cell : CodeCell)
    (all_validation_results : List (List ValidationResult)) : CodeCell :=
  all_validation_results.foldl
    (fun cell avr =>
      avr.foldl (fun cell vr => { text := cell.text ++ ['#', ' '] ++ vr.message ++ ['\n'] }) cell)
    code_cell

/-- `execute_cell_annotations(code_cell)`. The global `content` is assigned
before it is read, so its earlier value is not an input. -/
def execute_cell_annotations (fuel : Nat) (console : List Str) (code_cell : CodeCell) :
    Option CellRun :=
  let raw_content := code_cell.text
  let content := (js_split feedback_separator raw_content).headD []
  let lines := js_split ['\n'] content
  -- Selecting those lines which contain the robota suffix
  let annotated_lines := lines.filter (fun l => js_includes robota_suffix l)
  match validate_lines fuel annotated_lines console with
  | none => none
  | some (all_validation_results, console') =>
    let code_cell : CodeCell := { text := content ++ feedback_separator }
    some { code_cell := append_feedback code_cell all_validation_results
           content := content
           console := console' }

/-! ## Vocabulary of the statements -/

/-- The operator of the shipped validator. -/
def different_operator : Str := ['!', '=']

/-- The object emitted for a well-formed `!=` group with parameter `p`. -/
def different_object (p : Str) : GeneratedObject :=
  { validator_function := different_func, parameters := [p], name := "different".toList }

/-- The tokens `['!=', p1, '!=', p2, ..., '!=', pN]` of a chain of `!=` groups
with one parameter each. -/
def different_chain : List Str → List Str
  | [] => []
  | p :: ps => different_operator :: p :: different_chain ps

/-- The tokens `[p1, '!=', p2, '!=', ..., pN, '!=']`: a chain without its first
operator, followed by the operator that closes its last group. -/
def closed_groups : List Str → List Str
  | [] => []
  | p :: ps => p :: different_operator :: closed_groups ps

/-- A token that can stand as a parameter in an annotation text: not empty,
without the delimiter, and not the operator. -/
def is_parameter_token (p : Str) : Prop :=
  p ≠ [] ∧ ':' ∉ p ∧ p ≠ different_operator

instance (p : Str) : Decidable (is_parameter_token p) := by
  unfold is_parameter_token; infer_instance

/-- The result of executing a `!=` group with parameter `p` on `subject`. -/
def different_result (subject p : Str) : ValidationResult :=
  { is_valid := decide (subject ≠ p)
    message := "Validator different gave result ".toList ++
      (if subject = p then "false".toList else "true".toList) ++
      " for parameters ".toList ++ p ++ ".".toList }

/-- Every object of `objs` has as many parameters as a validator of the
registry with its name and function requires. -/
def arity_respected (registry : List Validator) (objs : List GeneratedObject) : Prop :=
  ∀ r ∈ objs, ∃ v ∈ registry,
    r.name = v.name ∧ r.validator_function = v.func ∧ r.parameters.length = v.num_inputs

/-- The invariant of the loop: the current validator comes from the registry,
and the objects generated so far respect the arities. -/
def loop_invariant (registry : List Validator) (st : LoopState) : Prop :=
  (∀ v, st.validator = some v → v ∈ registry) ∧ arity_respected registry st.objects

/-- The outcome of an iteration when `c` had been logged before it. -/
def logged_after (c : List Str) : LoopStep → LoopStep
  | .returned objs l => .returned objs (c ++ l)
  | .again st => .again { st with console := c ++ st.console }

/-- The loop, started in `st`, returns `objs` after some number of
iterations. -/
def returns_from (st : LoopState) (objs : List GeneratedObject) : Prop :=
  ∃ fuel c, parse_loop validators fuel st = some (objs, c)

/-- The call `parse_annotation_tokens(tokens)` returns `objs`. -/
def parse_returns (tokens : List Str) (objs : List GeneratedObject) : Prop :=
  ∃ fuel console c, parse_annotation_tokens fuel console tokens = some (objs, c)

/-- Two neighbouring tokens of which at least one is the operator. -/
def one_is_operator (a b : Str) : Prop :=
  a = different_operator ∨ b = different_operator

instance (a b : Str) : Decidable (one_is_operator a b) :=
  inferInstanceAs (Decidable (a = different_operator ∨ b = different_operator))

/-- The token lists on which the loop is claimed to return: the empty list,
the lists whose first token is not '!=', and the lists whose last token is not
'!=' and in which no two adjacent tokens are both different from '!='. -/
def returns_condition (tokens : List Str) : Prop :=
  tokens = [] ∨ tokens.head? ≠ some different_operator ∨
    (tokens.getLast? ≠ some different_operator ∧ List.Chain' one_is_operator tokens)

instance (tokens : List Str) : Decidable (returns_condition tokens) :=
  inferInstanceAs (Decidable (tokens = [] ∨ tokens.head? ≠ some different_operator ∨
    (tokens.getLast? ≠ some different_operator ∧ List.Chain' one_is_operator tokens)))

/-- Reference state machine, written from the description of the parser and
not from its code: a left-to-right fold over the tokens with the current
validator, the collected parameters and the output. (1) With no current
validator, a token that is not an operator (or the end of the input) gives
the empty result; an operator is adopted. (2) With a current validator, an
operator or the end of the input emits the current group if and only if its
parameter count equals the arity, and in either case the new operator is
adopted and the parameters are reset. (3) Any other token is appended to the
parameters. -/
def reference_fold (registry : List Validator) :
    List Str → Option Validator → List Str → List GeneratedObject → List GeneratedObject
  | [], none, _, _ => []
  | [], some v, collected, output =>
    if collected.length = v.num_inputs then output ++ [⟨v.func, collected, v.name⟩]
    else output
  | t :: ts, current, collected, output =>
    match find_validator registry (some t), current with
    | none, none => []
    | some nv, none => reference_fold registry ts (some nv) collected output
    | some nv, some v =>
      reference_fold registry ts (some nv) []
        (if collected.length = v.num_inputs then output ++ [⟨v.func, collected, v.name⟩]
         else output)
    | none, some v => reference_fold registry ts (some v) (collected ++ [t]) output

/-- The reference state machine on a whole token list, with the shipped
registry. -/
def reference_parse (tokens : List Str) : List GeneratedObject :=
  reference_fold validators tokens none [] []

/-- The feedback of one annotated line: '# ' ++ message ++ newline for each of
its results, in order. -/
def line_feedback : List ValidationResult → Str
  | [] => []
  | vr :: vrs => ['#', ' '] ++ vr.message ++ ['\n'] ++ line_feedback vrs

/-- The feedback of a cell: the feedback of its annotated lines, top to
bottom. -/
def feedback_text : List (List ValidationResult) → Str
  | [] => []
  | avr :: rest => line_feedback avr ++ feedback_text rest

/-- The text of a cell before its first feedback separator (the whole text
when there is none), as `execute_cell_annotations` computes it. -/
def cell_content (text : Str) : Str :=
  (js_split feedback_separator text).headD []

/-- The lines of a cell content that contain the marker '!robota', top to
bottom. -/
def annotated_lines (content : Str) : List Str :=
  (List.splitOn '\n' content).filter (fun l => decide (robota_suffix <:+: l))

/-! ## Basic facts about the loop -/

theorem find_validator_none (registry : List Validator) :
    find_validator registry none = none := by
  induction registry with
  | nil => rfl
  | cons v vs ih =>
    simp only [find_validator] at ih
    simp [find_validator, List.find?, ih]

theorem find_validator_operator :
    find_validator validators (some different_operator) = some different := by
  simp [find_validator, validators, different, different_operator]

theorem find_validator_other (t : Str) (h : t ≠ different_operator) :
    find_validator validators (some t) = none := by
  have h' : ¬ (['!', '='] = t) := fun e => h (by simp [different_operator, e.symm])
  simp [find_validator, validators, different, h']

theorem find_validator_mem (registry : List Validator) (t : Option Str) (v : Validator)
    (h : find_validator registry t = some v) : v ∈ registry := by
  unfold find_validator at h
  exact List.mem_of_find?_eq_some h

theorem parse_loop_mono (registry : List Validator) (fuel k : Nat) (st : LoopState)
    (r : List GeneratedObject × List Str) (h : parse_loop registry fuel st = some r) :
    parse_loop registry (fuel + k) st = some r := by
  induction fuel generalizing st with
  | zero => simp [parse_loop] at h
  | succ n ih =>
    rw [Nat.succ_add]
    simp only [parse_loop] at h ⊢
    cases hstep : loop_iteration registry st with
    | returned o c => rw [hstep] at h; simpa using h
    | again st' => rw [hstep] at h; simpa using ih st' h

theorem parse_loop_after (registry : List Validator) (n fuel : Nat) (st st' : LoopState)
    (h : loop_state_after registry n st = some st') :
    parse_loop registry (n + fuel) st = parse_loop registry fuel st' := by
  induction n generalizing st with
  | zero =>
    simp only [loop_state_after, Option.some.injEq] at h
    simp [h]
  | succ n ih =>
    rw [Nat.succ_add]
    simp only [loop_state_after] at h
    simp only [parse_loop]
    cases hstep : loop_iteration registry st with
    | returned o c => rw [hstep] at h; simp at h
    | again s => rw [hstep] at h; simpa using ih s h

theorem loop_state_after_add (registry : List Validator) (m n : Nat) (st st' st'' : LoopState)
    (h1 : loop_state_after registry m st = some st')
    (h2 : loop_state_after registry n st' = some st'') :
    loop_state_after registry (m + n) st = some st'' := by
  induction m generalizing st with
  | zero =>
    simp only [loop_state_after, Option.some.injEq] at h1
    simpa [h1] using h2
  | succ m ih =>
    rw [Nat.succ_add]
    simp only [loop_state_after] at h1 ⊢
    cases hstep : loop_iteration registry st with
    | returned o c => rw [hstep] at h1; simp at h1
    | again s => rw [hstep] at h1; simpa using ih s h1

/-! ### Single iterations with the shipped registry -/

theorem iteration_adopt (ts : List Str) (objs : List GeneratedObject) (ps : List Str)
    (c : List Str) :
    loop_iteration validators ⟨different_operator :: ts, objs, none, ps, c⟩ =
      .again ⟨ts, objs, some different, ps, c⟩ := by
  simp [loop_iteration, find_validator_operator, loop_test]

theorem iteration_invalid_start (tokens : List Str) (objs : List GeneratedObject)
    (ps : List Str) (c : List Str) (h : tokens.head? ≠ some different_operator) :
    loop_iteration validators ⟨tokens, objs, none, ps, c⟩ =
      .returned objs (c ++ ["Invalid start character!".toList]) := by
  cases tokens with
  | nil => simp [loop_iteration, find_validator_none]
  | cons t ts =>
    have ht : t ≠ different_operator := by simpa using h
    simp [loop_iteration, find_validator_other t ht]

theorem iteration_parameter (t : Str) (ts : List Str) (objs : List GeneratedObject)
    (v : Validator) (ps : List Str) (c : List Str) (h : t ≠ different_operator) :
    loop_iteration validators ⟨t :: ts, objs, some v, ps, c⟩ =
      .again ⟨ts, objs, some v, ps ++ [t], c⟩ := by
  simp [loop_iteration, find_validator_other t h, loop_test]

theorem iteration_emit_operator (ts : List Str) (objs : List GeneratedObject)
    (v : Validator) (ps : List Str) (c : List Str) (h : ps.length = v.num_inputs) :
    loop_iteration validators ⟨different_operator :: ts, objs, some v, ps, c⟩ =
      .again ⟨ts, objs ++ [⟨v.func, ps, v.name⟩], some different, [], c⟩ := by
  simp [loop_iteration, find_validator_operator, loop_test, h]

theorem iteration_emit_end (objs : List GeneratedObject)
    (v : Validator) (ps : List Str) (c : List Str) (h : ps.length = v.num_inputs) :
    loop_iteration validators ⟨[], objs, some v, ps, c⟩ =
      .returned (objs ++ [⟨v.func, ps, v.name⟩]) c := by
  simp [loop_iteration, find_validator_none, loop_test, h]

theorem iteration_skip_end (registry : List Validator) (objs : List GeneratedObject)
    (v : Validator) (ps : List Str) (c : List Str) (h : ps.length ≠ v.num_inputs) :
    loop_iteration registry ⟨[], objs, some v, ps, c⟩ =
      .again ⟨[], objs, some v, ps, c ++ [skipping_message v ps]⟩ := by
  simp [loop_iteration, find_validator_none, loop_test, h]

theorem iteration_skip_operator (ts : List Str) (objs : List GeneratedObject)
    (v : Validator) (ps : List Str) (c : List Str) (h : ps.length ≠ v.num_inputs) :
    loop_iteration validators ⟨different_operator :: ts, objs, some v, ps, c⟩ =
      .again ⟨ts, objs, some v, ps, c ++ [skipping_message v ps]⟩ := by
  simp [loop_iteration, find_validator_operator, loop_test, h]

/-! ### Chains of well-formed groups -/

theorem different_chain_append (ps qs : List Str) :
    different_chain (ps ++ qs) = different_chain ps ++ different_chain qs := by
  induction ps with
  | nil => rfl
  | cons p ps ih => simp [different_chain, ih]

theorem different_chain_operator (ps rest : List Str) :
    different_chain ps ++ different_operator :: rest =
      different_operator :: (closed_groups ps ++ rest) := by
  induction ps with
  | nil => rfl
  | cons p ps ih => simp [different_chain, closed_groups, ih]

theorem after_closed_groups (ps rest : List Str) (objs : List GeneratedObject) (c : List Str)
    (hp : ∀ p ∈ ps, p ≠ different_operator) :
    loop_state_after validators (2 * ps.length)
        ⟨closed_groups ps ++ rest, objs, some different, [], c⟩ =
      some ⟨rest, objs ++ ps.map different_object, some different, [], c⟩ := by
  induction ps generalizing objs with
  | nil => simp [closed_groups, loop_state_after]
  | cons p ps ih =>
    have hp1 : p ≠ different_operator := hp p (List.mem_cons_self _ _)
    have hp2 : ∀ q ∈ ps, q ≠ different_operator := fun q hq => hp q (List.mem_cons_of_mem _ hq)
    have hlen : 2 * (p :: ps).length = 2 * ps.length + 1 + 1 := by simp; ring
    rw [hlen]
    simp only [loop_state_after, closed_groups, List.cons_append]
    rw [iteration_parameter _ _ _ _ _ _ hp1]
    simp only [List.nil_append]
    rw [iteration_emit_operator _ _ _ _ _ (by simp [different])]
    simp only []
    rw [ih _ hp2]
    simp [different_object, different]

theorem after_chain (ps rest : List Str) (c : List Str)
    (hp : ∀ p ∈ ps, p ≠ different_operator) :
    loop_state_after validators (2 * ps.length + 1)
        (initial_state c (different_chain ps ++ different_operator :: rest)) =
      some ⟨rest, ps.map different_object, some different, [], c⟩ := by
  rw [different_chain_operator, Nat.add_comm]
  apply loop_state_after_add validators 1 (2 * ps.length) _
    ⟨closed_groups ps ++ rest, [], some different, [], c⟩
  · simp [loop_state_after, initial_state, iteration_adopt]
  · simpa using after_closed_groups ps rest [] c hp

theorem after_parameters (qs rest : List Str) (objs : List GeneratedObject) (v : Validator)
    (ps : List Str) (c : List Str) (hq : ∀ q ∈ qs, q ≠ different_operator) :
    loop_state_after validators qs.length ⟨qs ++ rest, objs, some v, ps, c⟩ =
      some ⟨rest, objs, some v, ps ++ qs, c⟩ := by
  induction qs generalizing ps with
  | nil => simp [loop_state_after]
  | cons q qs ih =>
    have hq1 : q ≠ different_operator := hq q (List.mem_cons_self _ _)
    have hq2 : ∀ t ∈ qs, t ≠ different_operator := fun t ht => hq t (List.mem_cons_of_mem _ ht)
    simp only [List.length_cons, loop_state_after, List.cons_append]
    rw [iteration_parameter _ _ _ _ _ _ hq1]
    simp only []
    rw [ih _ hq2]
    simp

/-- A loop that has used up its tokens with a group of the wrong size in hand
goes round for ever. -/
theorem stuck_at_end (registry : List Validator) (fuel : Nat) (objs : List GeneratedObject)
    (v : Validator) (ps : List Str) (c : List Str) (h : ps.length ≠ v.num_inputs) :
    parse_loop registry fuel ⟨[], objs, some v, ps, c⟩ = none := by
  induction fuel generalizing c with
  | zero => rfl
  | succ n ih =>
    simp only [parse_loop]
    rw [iteration_skip_end registry objs v ps c h]
    exact ih _

theorem parse_chain (ps : List Str) (c : List Str) (hne : ps ≠ [])
    (hp : ∀ p ∈ ps, p ≠ different_operator) (k : Nat) :
    parse_loop validators (2 * ps.length + 1 + k) (initial_state c (different_chain ps)) =
      some (ps.map different_object, c) := by
  obtain ⟨qs, p, rfl⟩ : ∃ qs p, ps = qs ++ [p] := by
    rcases List.eq_nil_or_concat ps with h | ⟨qs, p, h⟩
    · exact absurd h hne
    · exact ⟨qs, p, by simpa using h⟩
  have hq : ∀ q ∈ qs, q ≠ different_operator := fun q hq => hp q (by simp [hq])
  have hp1 : p ≠ different_operator := hp p (by simp)
  have hchain : different_chain (qs ++ [p]) = different_chain qs ++ different_operator :: [p] := by
    rw [different_chain_append]; rfl
  have hlen : 2 * (qs ++ [p]).length + 1 + k = (2 * qs.length + 1) + (2 + k) := by
    simp; ring
  rw [hchain, hlen, parse_loop_after validators _ _ _ _ (after_chain qs [p] c hq)]
  have h2 : 2 + k = k + 1 + 1 := by ring
  rw [h2]
  simp only [parse_loop]
  rw [iteration_parameter _ _ _ _ _ _ hp1]
  simp only [List.nil_append]
  rw [iteration_emit_end _ _ _ _ (by simp [different])]
  simp [different_object, different]

/-! ### Splitting an annotation text -/

theorem js_split_go_fragment (c : Char) (p rest acc : Str) (h : c ∉ p) :
    js_split_go [c] 0 (p ++ rest) acc = js_split_go [c] 0 rest (p.reverse ++ acc) := by
  induction p generalizing acc with
  | nil => rfl
  | cons d p ih =>
    have hd : ¬ (c = d) := fun e => h (by simp [e])
    have hp : c ∉ p := fun e => h (List.mem_cons_of_mem _ e)
    simp [js_split_go, List.isPrefixOf, hd, ih _ hp]

theorem js_split_join (c : Char) (toks : List Str) (hne : toks ≠ [])
    (h : ∀ t ∈ toks, c ∉ t) : js_split [c] (js_join [c] toks) = toks := by
  induction toks with
  | nil => exact absurd rfl hne
  | cons t rest ih =>
    have ht : c ∉ t := h t (List.mem_cons_self _ _)
    cases rest with
    | nil =>
      have := js_split_go_fragment c t [] [] ht
      simp only [List.append_nil] at this
      simp [js_split, js_join, this, js_split_go]
    | cons u rest =>
      have hrest : ∀ x ∈ u :: rest, c ∉ x := fun x hx => h x (List.mem_cons_of_mem _ hx)
      have ih' := ih (by simp) hrest
      have := js_split_go_fragment c t (c :: js_join [c] (u :: rest)) [] ht
      simp only [List.append_nil] at this
      simp only [js_split] at ih'
      simp [js_split, js_join, this, js_split_go, List.isPrefixOf, ih']

theorem annotation_tokens_join (toks : List Str) (h : ∀ t ∈ toks, t ≠ [] ∧ ':' ∉ t) :
    annotation_tokens (js_join [':'] toks) = toks := by
  cases toks with
  | nil => simp [annotation_tokens, js_join, js_split, js_split_go]
  | cons t rest =>
    unfold annotation_tokens
    rw [js_split_join ':' (t :: rest) (by simp) (fun x hx => (h x hx).2)]
    rw [List.filter_eq_self]
    intro x hx
    simpa using (h x hx).1

theorem different_chain_tokens (ps : List Str) (hp : ∀ p ∈ ps, is_parameter_token p) :
    ∀ t ∈ different_chain ps, t ≠ [] ∧ ':' ∉ t := by
  induction ps with
  | nil => simp [different_chain]
  | cons p ps ih =>
    have h1 := hp p (List.mem_cons_self _ _)
    have h2 := ih (fun q hq => hp q (List.mem_cons_of_mem _ hq))
    intro t ht
    simp only [different_chain, List.mem_cons] at ht
    rcases ht with rfl | rfl | ht
    · simp [different_operator]
    · exact ⟨h1.1, h1.2.1⟩
    · exact h2 t ht

theorem executor_different (subject p : Str) :
    executor subject different_func [p] "different".toList = different_result subject p := by
  by_cases h : subject = p <;>
    simp [executor, different_result, different_func, js_bool_to_string, js_join, h]

/-! ### Groups of the wrong size -/

theorem never_returns_of_after (registry : List Validator) (n : Nat) (st st' : LoopState)
    (h : loop_state_after registry n st = some st')
    (hstuck : ∀ fuel, parse_loop registry fuel st' = none) (fuel : Nat) :
    parse_loop registry fuel st = none := by
  cases hr : parse_loop registry fuel st with
  | none => rfl
  | some r =>
    have h1 := parse_loop_mono registry fuel n st r hr
    rw [Nat.add_comm, parse_loop_after registry n fuel st st' h, hstuck fuel] at h1
    exact absurd h1 (by simp)

/-- A chain whose final `!=` group does not have exactly one parameter is
never left by the loop. -/
theorem final_group_mismatch_never_returns (ps qs : List Str)
    (hp : ∀ p ∈ ps, p ≠ different_operator) (hq : ∀ q ∈ qs, q ≠ different_operator)
    (hlen : qs.length ≠ 1) (fuel : Nat) (console : List Str) :
    parse_annotation_tokens fuel console (different_chain ps ++ different_operator :: qs) =
      none := by
  unfold parse_annotation_tokens parse_annotation_tokens_in
  apply never_returns_of_after validators (2 * ps.length + 1 + qs.length) _
    ⟨[], ps.map different_object, some different, qs, console⟩
  · apply loop_state_after_add validators _ _ _ _ _ (after_chain ps qs console hp)
    simpa using after_parameters qs [] (ps.map different_object) different [] console hq
  · intro fuel
    exact stuck_at_end validators fuel _ different qs console (by simpa [different] using hlen)

theorem validate_line_none (fuel : Nat) (console : List Str) (line : Str)
    (h : parse_annotation_tokens fuel console (annotation_tokens ( robota_annotation line)) =
      none) :
    validate_line fuel console line = none := by
  unfold validate_line
  rw [h]

/-! ### The invariant -/

theorem loop_invariant_iteration (registry : List Validator) (st : LoopState)
    (h : loop_invariant registry st) :
    match loop_iteration registry st with
    | .returned objs _ => arity_respected registry objs
    | .again st' => loop_invariant registry st' := by
  obtain ⟨tokens, objs, validator, ps, c⟩ := st
  obtain ⟨hv, ho⟩ := h
  simp only at hv ho
  have hpush : ∀ v, validator = some v → ps.length = v.num_inputs →
      arity_respected registry (objs ++ [⟨v.func, ps, v.name⟩]) := by
    intro v hvv hlen r hr
    rcases List.mem_append.1 hr with hr | hr
    · exact ho r hr
    · have hr' : r = ⟨v.func, ps, v.name⟩ := by simpa using hr
      exact ⟨v, hv v hvv, by simp [hr'], by simp [hr'], by simp [hr', hlen]⟩
  cases hfv : find_validator registry tokens.head? with
  | none =>
    cases validator with
    | none => simpa [loop_iteration, hfv] using ho
    | some v =>
      cases tokens with
      | nil =>
        by_cases hlen : ps.length = v.num_inputs
        · simpa [loop_iteration, find_validator_none, loop_test, hlen] using hpush v rfl hlen
        · simpa [loop_iteration, find_validator_none, loop_test, hlen, loop_invariant] using
            ⟨hv v rfl, ho⟩
      | cons t ts =>
        rw [List.head?_cons] at hfv
        simpa [loop_iteration, hfv, loop_test, loop_invariant] using ⟨hv v rfl, ho⟩
  | some nv =>
    have hnv : nv ∈ registry := find_validator_mem registry _ nv hfv
    cases tokens with
    | nil => rw [List.head?_nil, find_validator_none] at hfv; exact absurd hfv (by simp)
    | cons t ts =>
      rw [List.head?_cons] at hfv
      cases validator with
      | none => simpa [loop_iteration, hfv, loop_test, loop_invariant] using ⟨hnv, ho⟩
      | some v =>
        by_cases hlen : ps.length = v.num_inputs
        · simpa [loop_iteration, hfv, loop_test, hlen, loop_invariant] using
            ⟨hnv, hpush v rfl hlen⟩
        · simpa [loop_iteration, hfv, loop_test, hlen, loop_invariant] using ⟨hv v rfl, ho⟩

theorem loop_invariant_after (registry : List Validator) (n : Nat) (st st' : LoopState)
    (h : loop_invariant registry st) (hafter : loop_state_after registry n st = some st') :
    loop_invariant registry st' := by
  induction n generalizing st with
  | zero =>
    simp only [loop_state_after, Option.some.injEq] at hafter
    exact hafter ▸ h
  | succ n ih =>
    have hstep := loop_invariant_iteration registry st h
    simp only [loop_state_after] at hafter
    cases hit : loop_iteration registry st with
    | returned o c => rw [hit] at hafter; simp at hafter
    | again s =>
      rw [hit] at hafter hstep
      exact ih s hstep hafter

theorem loop_invariant_returned (registry : List Validator) (fuel : Nat) (st : LoopState)
    (objs : List GeneratedObject) (c : List Str)
    (h : loop_invariant registry st) (hret : parse_loop registry fuel st = some (objs, c)) :
    arity_respected registry objs := by
  induction fuel generalizing st with
  | zero => simp [parse_loop] at hret
  | succ n ih =>
    have hstep := loop_invariant_iteration registry st h
    simp only [parse_loop] at hret
    cases hit : loop_iteration registry st with
    | returned o c' =>
      rw [hit] at hret hstep
      simp only [Option.some.injEq, Prod.mk.injEq] at hret
      exact hret.1 ▸ hstep
    | again s =>
      rw [hit] at hret hstep
      exact ih s hstep hret

theorem loop_invariant_initial (registry : List Validator) (console : List Str)
    (tokens : List Str) : loop_invariant registry (initial_state console tokens) := by
  constructor
  · intro v hv; simp [initial_state] at hv
  · intro r hr; simp [initial_state] at hr

theorem validate_line_chain (ps : List Str) (hne : ps ≠ [])
    (hp : ∀ p ∈ ps, p ≠ different_operator) (k : Nat) (console : List Str) (line : Str)
    (htok : annotation_tokens ( robota_annotation line) = different_chain ps) :
    validate_line (2 * ps.length + 1 + k) console line =
      some (ps.map (different_result (line_input line)), console) := by
  unfold validate_line parse_annotation_tokens parse_annotation_tokens_in
  rw [htok, parse_chain ps console hne hp k]
  simp only [List.map_map, Option.some.injEq, Prod.mk.injEq, and_true]
  apply List.map_congr_left
  intro p _
  exact executor_different (line_input line) p

/-! ### The console -/

theorem loop_iteration_console (registry : List Validator) (tokens : List Str)
    (objs : List GeneratedObject) (v : Option Validator) (ps : List Str) (c l : List Str) :
    loop_iteration registry ⟨tokens, objs, v, ps, c ++ l⟩ =
      logged_after c (loop_iteration registry ⟨tokens, objs, v, ps, l⟩) := by
  cases hfv : find_validator registry tokens.head? with
  | none =>
    cases v with
    | none => simp [loop_iteration, hfv, logged_after]
    | some v =>
      cases tokens with
      | nil =>
        by_cases hlen : ps.length = v.num_inputs <;>
          simp [loop_iteration, find_validator_none, loop_test, hlen, logged_after]
      | cons t ts =>
        rw [List.head?_cons] at hfv
        simp [loop_iteration, hfv, loop_test, logged_after]
  | some nv =>
    cases tokens with
    | nil => rw [List.head?_nil, find_validator_none] at hfv; exact absurd hfv (by simp)
    | cons t ts =>
      rw [List.head?_cons] at hfv
      cases v with
      | none => simp [loop_iteration, hfv, loop_test, logged_after]
      | some v =>
        by_cases hlen : ps.length = v.num_inputs <;>
          simp [loop_iteration, hfv, loop_test, hlen, logged_after]

theorem parse_loop_console (registry : List Validator) (fuel : Nat) (tokens : List Str)
    (objs : List GeneratedObject) (v : Option Validator) (ps : List Str) (c l : List Str) :
    parse_loop registry fuel ⟨tokens, objs, v, ps, c ++ l⟩ =
      (parse_loop registry fuel ⟨tokens, objs, v, ps, l⟩).map (fun r => (r.1, c ++ r.2)) := by
  induction fuel generalizing tokens objs v ps l with
  | zero => rfl
  | succ n ih =>
    simp only [parse_loop]
    rw [loop_iteration_console]
    cases loop_iteration registry ⟨tokens, objs, v, ps, l⟩ with
    | returned o l' => simp [logged_after]
    | again st =>
      obtain ⟨t', o', v', p', l'⟩ := st
      simpa [logged_after] using ih t' o' v' p' l'

theorem validate_line_console (fuel : Nat) (console : List Str) (line : Str) :
    validate_line fuel console line =
      (validate_line fuel [] line).map (fun r => (r.1, console ++ r.2)) := by
  unfold validate_line parse_annotation_tokens parse_annotation_tokens_in initial_state
  have h := parse_loop_console validators fuel (annotation_tokens ( robota_annotation line))
    [] none [] console []
  rw [List.append_nil] at h
  rw [h]
  cases parse_loop validators fuel
      ⟨annotation_tokens ( robota_annotation line), [], none, [], []⟩ with
  | none => rfl
  | some r => rfl

theorem validate_line_mono (fuel k : Nat) (console : List Str) (line : Str)
    (r : List ValidationResult × List Str) (h : validate_line fuel console line = some r) :
    validate_line (fuel + k) console line = some r := by
  unfold validate_line parse_annotation_tokens parse_annotation_tokens_in at h ⊢
  cases hp : parse_loop validators fuel
      (initial_state console (annotation_tokens ( robota_annotation line))) with
  | none => rw [hp] at h; simp at h
  | some o =>
    rw [hp] at h
    rw [parse_loop_mono validators fuel k _ o hp]
    exact h

theorem js_join_eq_intercalate (sep : Str) (l : List Str) :
    js_join sep l = List.intercalate sep l := by
  induction l with
  | nil => rfl
  | cons x rest ih =>
    cases rest with
    | nil => simp [js_join, List.intercalate]
    | cons y rest =>
      simp only [js_join, ih]
      simp [List.intercalate, List.intersperse]

/-! ## The claims -/

/-- C1: for every N ≥ 1 and parameter tokens p1..pN (non-empty, without ':',
different from '!='), `parse_annotation_tokens` on ['!=', p1, ..., '!=', pN]
returns exactly the N requests `different [pi]` in order (after 2N+1
iterations, logging nothing), and `validate_line` on a line whose annotation
is '!=:p1:...:!=:pN' returns exactly N results in that order, the i-th having
`is_valid = (subject ≠ pi)`. -/
theorem chained_groups_give_results_in_order (ps : List Str) (hN : ps ≠ [])
    (hp : ∀ p ∈ ps, is_parameter_token p) (fuel : Nat) (hfuel : 2 * ps.length + 1 ≤ fuel)
    (console : List Str) :
    parse_annotation_tokens fuel console (different_chain ps) =
        some (ps.map different_object, console) ∧
      ∀ line, robota_annotation line = js_join [':'] (different_chain ps) →
        validate_line fuel console line =
          some (ps.map (different_result (line_input line)), console) := by
  obtain ⟨k, rfl⟩ := Nat.exists_eq_add_of_le hfuel
  refine ⟨parse_chain ps console hN (fun p h => (hp p h).2.2) k, fun line hline => ?_⟩
  apply validate_line_chain ps hN (fun p h => (hp p h).2.2) k console line
  rw [hline, annotation_tokens_join _ (different_chain_tokens ps hp)]

/-- Witness of C1: subject 'x' with annotation '!=:2:!=:3' gives two results,
both true, in order. -/
theorem chained_groups_give_results_in_order_witness :
    validate_line 5 [] "x #!robota!=:2:!=:3".toList =
      some ([⟨true, "Validator different gave result true for parameters 2.".toList⟩,
             ⟨true, "Validator different gave result true for parameters 3.".toList⟩], []) :=
  (chained_groups_give_results_in_order ["2".toList, "3".toList] (by decide) (by decide) 5
    (by decide) []).2 "x #!robota!=:2:!=:3".toList (by decide)

/-- C2: when the token list is empty or its first token is not '!=',
`parse_annotation_tokens` returns the empty list at its first iteration,
whatever tokens follow, and `validate_line` returns the empty result
sequence; "Invalid start character!" is logged. -/
theorem unrecognized_start_gives_empty (tokens : List Str)
    (h : tokens.head? ≠ some different_operator) (fuel : Nat) (console : List Str) :
    parse_annotation_tokens (fuel + 1) console tokens =
        some ([], console ++ ["Invalid start character!".toList]) ∧
      ∀ line, annotation_tokens ( robota_annotation line) = tokens →
        validate_line (fuel + 1) console line =
          some ([], console ++ ["Invalid start character!".toList]) := by
  have hparse : parse_annotation_tokens (fuel + 1) console tokens =
      some ([], console ++ ["Invalid start character!".toList]) := by
    simp only [parse_annotation_tokens, parse_annotation_tokens_in, parse_loop, initial_state]
    rw [iteration_invalid_start tokens [] [] console h]
  refine ⟨hparse, fun line hline => ?_⟩
  unfold validate_line
  rw [hline, hparse]
  rfl

/-- Witness of C2: subject 'x' with annotation 'foo:2', and with a later
'!=' that is not reached. -/
theorem unrecognized_start_gives_empty_witness :
    validate_line 1 [] "x #!robotafoo:2".toList = some ([], ["Invalid start character!".toList]) ∧
    parse_annotation_tokens 1 [] ["foo".toList, "!=".toList, "2".toList] =
      some ([], ["Invalid start character!".toList]) :=
  ⟨(unrecognized_start_gives_empty ["foo".toList, "2".toList] (by decide) 0 []).2
      "x #!robotafoo:2".toList (by decide),
   (unrecognized_start_gives_empty ["foo".toList, "!=".toList, "2".toList] (by decide) 0 []).1⟩

/-- C3 (the code departs from the claim): after K well-formed groups, a final
`!=` group whose parameter count is not 1 is not dropped: the loop never
leaves, whatever the number of iterations allowed, so neither
`parse_annotation_tokens` nor `validate_line` returns the K requests. -/
theorem malformed_final_group_never_returns (ps qs : List Str)
    (hp : ∀ p ∈ ps, is_parameter_token p) (hq : ∀ q ∈ qs, is_parameter_token q)
    (hlen : qs.length ≠ 1) (fuel : Nat) (console : List Str) :
    parse_annotation_tokens fuel console (different_chain ps ++ different_operator :: qs) =
        none ∧
      ∀ line, annotation_tokens ( robota_annotation line) =
          different_chain ps ++ different_operator :: qs →
        validate_line fuel console line = none := by
  have hparse := final_group_mismatch_never_returns ps qs (fun p h => (hp p h).2.2)
    (fun q h => (hq q h).2.2) hlen fuel console
  refine ⟨hparse, fun line hline => validate_line_none fuel console line ?_⟩
  rw [hline, hparse]

/-- Witness of C3: the annotations '!=:1:2' and '!=:1:!=:' of the
specification never return, under any bound on the iterations. -/
theorem malformed_final_group_never_returns_witness :
    (∀ fuel console, validate_line fuel console "x #!robota!=:1:2".toList = none) ∧
      (∀ fuel console, validate_line fuel console "x #!robota!=:1:!=:".toList = none) :=
  ⟨fun fuel console =>
      (malformed_final_group_never_returns [] ["1".toList, "2".toList] (by decide) (by decide)
        (by decide) fuel console).2 "x #!robota!=:1:2".toList (by decide),
   fun fuel console =>
      (malformed_final_group_never_returns ["1".toList] [] (by decide) (by decide)
        (by decide) fuel console).2 "x #!robota!=:1:!=:".toList (by decide)⟩

/-- C4 (the code departs from the claim): on the token list ['!='], and so on
the line '1 #!robota:!=', the loop of `parse_annotation_tokens` does not
finish: no number of iterations makes it return. -/
theorem lone_operator_never_returns (fuel : Nat) (console : List Str) :
    parse_annotation_tokens fuel console [different_operator] = none ∧
      validate_line fuel console "1 #!robota:!=".toList = none := by
  have hparse := final_group_mismatch_never_returns [] [] (by simp) (by simp) (by simp)
    fuel console
  refine ⟨hparse, validate_line_none fuel console _ ?_⟩
  have htok : annotation_tokens ( robota_annotation "1 #!robota:!=".toList) =
      different_chain [] ++ different_operator :: [] := by decide
  rw [htok, hparse]

/-- C5 (the code departs from the claim): on ['!=', a, b, '!=', c] the second
'!=' is consumed but not adopted, and the parameters are not reset: after
four iterations they are still [a, b], the fifth makes them [a, b, c], and
the loop then never returns, so no request `different [c]` is produced. -/
theorem oversized_group_is_not_discarded (a b c : Str) (ha : a ≠ different_operator)
    (hb : b ≠ different_operator) (hc : c ≠ different_operator) (console : List Str) :
    loop_state_after validators 4
        (initial_state console
          [different_operator, a, b, different_operator, c]) =
        some ⟨[c], [], some different, [a, b],
          console ++ [skipping_message different [a, b]]⟩ ∧
      ∀ fuel, parse_annotation_tokens fuel console
        [different_operator, a, b, different_operator, c] = none := by
  have h4 : loop_state_after validators 4
      (initial_state console [different_operator, a, b, different_operator, c]) =
      some ⟨[c], [], some different, [a, b],
        console ++ [skipping_message different [a, b]]⟩ := by
    simp only [loop_state_after, initial_state]
    rw [iteration_adopt]
    simp only []
    rw [iteration_parameter _ _ _ _ _ _ ha]
    simp only []
    rw [iteration_parameter _ _ _ _ _ _ hb]
    simp only []
    rw [iteration_skip_operator _ _ _ _ _ (by simp [different])]
    simp
  refine ⟨h4, fun fuel => ?_⟩
  unfold parse_annotation_tokens parse_annotation_tokens_in
  apply never_returns_of_after validators 5 _
    ⟨[], [], some different, [a, b, c], console ++ [skipping_message different [a, b]]⟩
  · apply loop_state_after_add validators 4 1 _ _ _ h4
    simp only [loop_state_after]
    rw [iteration_parameter _ _ _ _ _ _ hc]
    simp
  · intro fuel
    exact stuck_at_end validators fuel _ different _ _ (by simp [different])

/-- Witness of C5: on ['!=', '1', '2', '!=', '3'] the parameters are still
['1', '2'] after the second '!=', and the call never returns. -/
theorem oversized_group_is_not_discarded_witness :
    loop_state_after validators 4
        (initial_state []
          [different_operator, "1".toList, "2".toList, different_operator, "3".toList]) =
        some ⟨["3".toList], [], some different, ["1".toList, "2".toList],
          [] ++ [skipping_message different ["1".toList, "2".toList]]⟩ ∧
      ∀ fuel, parse_annotation_tokens fuel []
        [different_operator, "1".toList, "2".toList, different_operator, "3".toList] = none :=
  oversized_group_is_not_discarded "1".toList "2".toList "3".toList (by decide) (by decide)
    (by decide) []

/-- C6: at every iteration of the loop of `parse_annotation_tokens`, and in the
list it returns, every object has as many parameters as the `num_inputs` of
the registry validator whose name and function it carries; with the shipped
registry every returned object has exactly one parameter. -/
theorem emitted_requests_respect_arity (registry : List Validator) (console : List Str)
    (tokens : List Str) :
    (∀ n st, loop_state_after registry n (initial_state console tokens) = some st →
        arity_respected registry st.objects) ∧
      (∀ fuel objs c, parse_annotation_tokens_in registry fuel console tokens = some (objs, c) →
        arity_respected registry objs) ∧
      (∀ fuel objs c, parse_annotation_tokens fuel console tokens = some (objs, c) →
        ∀ r ∈ objs, r.parameters.length = 1) := by
  refine ⟨fun n st h => ?_, fun fuel objs c h => ?_, fun fuel objs c h r hr => ?_⟩
  · exact (loop_invariant_after registry n _ st
      (loop_invariant_initial registry console tokens) h).2
  · exact loop_invariant_returned registry fuel _ objs c
      (loop_invariant_initial registry console tokens) h
  · obtain ⟨v, hv, -, -, hlen⟩ := loop_invariant_returned validators fuel _ objs c
      (loop_invariant_initial validators console tokens) h r hr
    have hv' : v = different := by simpa [validators] using hv
    rw [hlen, hv']
    rfl

/-- Witness of C6: the two objects returned for ['!=', '2', '!=', '3'] have one
parameter each. -/
theorem emitted_requests_respect_arity_witness :
    (different_object "2".toList).parameters.length = 1 ∧
      (different_object "3".toList).parameters.length = 1 :=
  have h := (emitted_requests_respect_arity validators []
    ["!=".toList, "2".toList, "!=".toList, "3".toList]).2.2 5
    [different_object "2".toList, different_object "3".toList] [] rfl
  ⟨h _ (List.mem_cons_self _ _), h _ (List.mem_cons_of_mem _ (List.mem_cons_self _ _))⟩

/-- C7: for every line whose annotation is '!=:p' with p a parameter token
(non-empty, without ':', different from '!='), `validate_line` returns
exactly one result, and its `is_valid` is true if and only if the subject and
p are different strings, compared character by character without numeric
coercion. -/
theorem single_different_group (line p : Str) (hp : is_parameter_token p)
    (hline : robota_annotation line = different_operator ++ ':' :: p)
    (fuel : Nat) (hfuel : 3 ≤ fuel) (console : List Str) :
    validate_line fuel console line =
        some ([different_result (line_input line) p], console) ∧
      ((different_result (line_input line) p).is_valid = true ↔ line_input line ≠ p) := by
  obtain ⟨k, rfl⟩ := Nat.exists_eq_add_of_le hfuel
  constructor
  · have hjoin : different_operator ++ ':' :: p = js_join [':'] (different_chain [p]) := by
      simp [js_join, different_chain]
    have htok : annotation_tokens ( robota_annotation line) = different_chain [p] := by
      rw [hline, hjoin]
      apply annotation_tokens_join
      exact different_chain_tokens [p] (by simpa using hp)
    simpa using validate_line_chain [p] (by simp) (by simpa using hp.2.2) k console line htok
  · simp [different_result]

/-- Witness of C7: subject '1' with '!=:1' is invalid, with '!=:2' valid, and
with '!=:1.0' valid as well. -/
theorem single_different_group_witness :
    validate_line 3 [] "1 #!robota!=:1".toList =
        some ([⟨false, "Validator different gave result false for parameters 1.".toList⟩], []) ∧
    validate_line 3 [] "1 #!robota!=:2".toList =
        some ([⟨true, "Validator different gave result true for parameters 2.".toList⟩], []) ∧
    validate_line 3 [] "1 #!robota!=:1.0".toList =
        some ([⟨true, "Validator different gave result true for parameters 1.0.".toList⟩], []) :=
  ⟨(single_different_group "1 #!robota!=:1".toList "1".toList (by decide) (by decide) 3
      (by decide) []).1,
   (single_different_group "1 #!robota!=:2".toList "2".toList (by decide) (by decide) 3
      (by decide) []).1,
   (single_different_group "1 #!robota!=:1.0".toList "1.0".toList (by decide) (by decide) 3
      (by decide) []).1⟩

/-- C8: whenever the parser returns the objects `objs` for a line,
`validate_line` returns one result per object, in order, whose `is_valid` is
the value of the object's validator function on the subject and the
parameters, and whose message is 'Validator ' ++ name ++ ' gave result ' ++
('true' or 'false') ++ ' for parameters ' ++ (parameters joined by ',') ++ '.'. -/
theorem result_message_format (fuel : Nat) (console : List Str) (line : Str)
    (objs : List GeneratedObject) (console' : List Str)
    (h : parse_annotation_tokens fuel console (annotation_tokens ( robota_annotation line)) =
      some (objs, console')) :
    validate_line fuel console line =
      some (objs.map (fun r =>
        { is_valid := r.validator_function (line_input line) r.parameters
          message := "Validator ".toList ++ r.name ++ " gave result ".toList ++
            (if r.validator_function (line_input line) r.parameters = true
              then "true".toList else "false".toList) ++
            " for parameters ".toList ++ List.intercalate ",".toList r.parameters ++
            ".".toList }), console') := by
  unfold validate_line
  rw [h]
  simp only [Option.some.injEq, Prod.mk.injEq, and_true]
  apply List.map_congr_left
  intro r _
  cases hv : r.validator_function (line_input line) r.parameters <;>
    simp [executor, js_bool_to_string, js_join_eq_intercalate, hv]

/-- Witness of C8: subject '1' with annotation '!=:1' gives the message
'Validator different gave result false for parameters 1.'. -/
theorem result_message_format_witness :
    validate_line 3 [] "1 #!robota!=:1".toList =
      some ([⟨false, "Validator different gave result false for parameters 1.".toList⟩], []) :=
  result_message_format 3 [] "1 #!robota!=:1".toList [different_object "1".toList] [] rfl

/-- C9: looking a token up in the shipped registry returns the descriptor
`different` (name 'different', one input) exactly when the token is the
string '!=', and nothing for every other string and for the missing token;
' !=', '!' and '!==' are not found. -/
theorem registry_lookup_exact (t : Str) :
    find_validator validators (some t) =
        (if t = "!=".toList then some different else none) ∧
      find_validator validators none = none ∧
      different.name = "different".toList ∧ different.num_inputs = 1 ∧
      find_validator validators (some " !=".toList) = none ∧
      find_validator validators (some "!".toList) = none ∧
      find_validator validators (some "!==".toList) = none := by
  refine ⟨?_, find_validator_none _, rfl, rfl, ?_, ?_, ?_⟩
  · by_cases h : t = "!=".toList
    · rw [if_pos h, h]
      exact find_validator_operator
    · rw [if_neg h]
      exact find_validator_other t h
  · exact find_validator_other _ (by decide)
  · exact find_validator_other _ (by decide)
  · exact find_validator_other _ (by decide)

/-- C10: the results of `validate_line` on a line do not depend on what earlier
calls left behind (the console, the only state that outlives a call, is
merely appended to); a second call on the same line after the first returns
the same results; two calls that return do so with equal results whatever
iteration bounds they ran under; and the results are a function of the
extracted subject and annotation text alone. -/
theorem validate_line_deterministic (fuel : Nat) (console : List Str) (line : Str) :
    validate_line fuel console line =
        (validate_line fuel [] line).map (fun r => (r.1, console ++ r.2)) ∧
      (∀ results console1, validate_line fuel console line = some (results, console1) →
        ∃ console2, validate_line fuel console1 line = some (results, console2)) ∧
      (∀ fuel' console' results results' c c',
        validate_line fuel console line = some (results, c) →
        validate_line fuel' console' line = some (results', c') → results = results') ∧
      (∀ line', line_input line' = line_input line →
        robota_annotation line' = robota_annotation line →
        validate_line fuel console line' = validate_line fuel console line) := by
  have key : ∀ f c1 c2 r l, validate_line f c1 line = some (r, l) →
      ∃ l', validate_line f c2 line = some (r, l') := by
    intro f c1 c2 r l h
    rw [validate_line_console] at h
    rw [validate_line_console f c2]
    cases h0 : validate_line f [] line with
    | none => rw [h0] at h; simp at h
    | some x =>
      rw [h0] at h
      simp only [Option.map_some', Option.some.injEq, Prod.mk.injEq] at h
      exact ⟨c2 ++ x.2, by simp [h.1]⟩
  refine ⟨validate_line_console fuel console line, ?_, ?_, ?_⟩
  · intro results console1 h
    exact key fuel console console1 results console1 h
  · intro fuel' console' results results' c c' h h'
    have h1 := validate_line_mono fuel fuel' console line _ h
    have h2 := validate_line_mono fuel' fuel console' line _ h'
    obtain ⟨l, h3⟩ := key _ console console' results c h1
    rw [Nat.add_comm] at h3
    rw [h3] at h2
    simp only [Option.some.injEq, Prod.mk.injEq] at h2
    exact h2.1
  · intro line' hs ha
    unfold validate_line
    rw [hs, ha]

/-- Witness of C10: after a first call on 'x #!robota:!=:!=:3', which logs a
skipped group, a second call from the console it left returns the same
single result. -/
theorem validate_line_deterministic_witness :
    ∃ console2, validate_line 4 ["!= expects 1 inputs,but 0 were found. Skipping.".toList]
        "x #!robota:!=:!=:3".toList =
      some ([⟨true, "Validator different gave result true for parameters 3.".toList⟩],
        console2) :=
  (validate_line_deterministic 4 [] "x #!robota:!=:!=:3".toList).2.1 _ _ (by decide)

/-! ### Consecutive operators -/

theorem parse_empty_group (ps qs : List Str) (hp : ∀ p ∈ ps, p ≠ different_operator)
    (hq : ∀ q ∈ qs, q ≠ different_operator) (hne : qs ≠ []) (k : Nat) (c : List Str) :
    parse_loop validators (2 * (ps.length + qs.length) + 2 + k)
        (initial_state c (different_chain ps ++ different_operator :: different_chain qs)) =
      some ((ps ++ qs).map different_object, c ++ [skipping_message different []]) := by
  obtain ⟨rs, q, rfl⟩ : ∃ rs q, qs = rs ++ [q] := by
    rcases List.eq_nil_or_concat qs with h | ⟨rs, q, h⟩
    · exact absurd h hne
    · exact ⟨rs, q, by simpa using h⟩
  have hr : ∀ r ∈ rs, r ≠ different_operator := fun r hr => hq r (by simp [hr])
  have hq1 : q ≠ different_operator := hq q (by simp)
  have hchain : different_chain (rs ++ [q]) =
      different_operator :: (closed_groups rs ++ [q]) := by
    rw [different_chain_append]
    exact different_chain_operator rs [q]
  have hlen : 2 * (ps.length + (rs ++ [q]).length) + 2 + k =
      (2 * ps.length + 1) + ((1 + 2 * rs.length) + (k + 1 + 1)) := by
    simp; ring
  rw [hlen, parse_loop_after validators _ _ _ _ (after_chain ps _ c hp), hchain]
  have hskip : loop_state_after validators (1 + 2 * rs.length)
      ⟨different_operator :: (closed_groups rs ++ [q]), ps.map different_object,
        some different, [], c⟩ =
      some ⟨[q], ps.map different_object ++ rs.map different_object, some different, [],
        c ++ [skipping_message different []]⟩ := by
    apply loop_state_after_add validators 1 (2 * rs.length) _
      ⟨closed_groups rs ++ [q], ps.map different_object, some different, [],
        c ++ [skipping_message different []]⟩
    · simp only [loop_state_after]
      rw [iteration_skip_operator _ _ _ _ _ (by simp [different])]
    · exact after_closed_groups rs [q] _ _ hr
  rw [parse_loop_after validators _ _ _ _ hskip]
  simp only [parse_loop]
  rw [iteration_parameter _ _ _ _ _ _ hq1]
  simp only [List.nil_append]
  rw [iteration_emit_end _ _ _ _ (by simp [different])]
  simp [different_object, different]

/-! ### Tokenization -/

theorem js_split_go_eq_splitOnP (c : Char) (s acc : Str) :
    js_split_go [c] 0 s acc = List.splitOnP.go (fun x => x == c) s acc := by
  induction s generalizing acc with
  | nil => rfl
  | cons d s ih =>
    by_cases h : d = c
    · simp [js_split_go, List.splitOnP.go, List.isPrefixOf, h, ih]
    · have h' : ¬ (c = d) := fun e => h e.symm
      simp [js_split_go, List.splitOnP.go, List.isPrefixOf, h, h', ih]

theorem js_split_eq_splitOn (c : Char) (s : Str) : js_split [c] s = List.splitOn c s :=
  js_split_go_eq_splitOnP c s []

theorem js_split_go_fragments (c : Char) (s acc : Str) (hacc : c ∉ acc) :
    ∀ t ∈ js_split_go [c] 0 s acc, c ∉ t := by
  induction s generalizing acc with
  | nil =>
    intro t ht
    simp only [js_split_go, List.mem_singleton] at ht
    simpa [ht] using hacc
  | cons d s ih =>
    intro t ht
    by_cases h : c = d
    · simp only [js_split_go, List.isPrefixOf, h, beq_self_eq_true, Bool.and_self,
        if_true, List.length_singleton, Nat.sub_self, List.mem_cons] at ht
      rcases ht with ht | ht
      · rw [ht]; simpa [h] using hacc
      · exact ih [] (by simp) t (by simpa [h] using ht)
    · have hbeq : (c == d) = false := by simpa using h
      simp only [js_split_go, List.isPrefixOf, hbeq, Bool.false_and] at ht
      exact ih (d :: acc) (by simp [h, hacc]) t (by simpa using ht)

/-- C12: the tokens of an annotation text are exactly the non-empty fragments
of the text split at every ':', in their order; no token is empty and none
contains ':'; so however many empty fragments (leading, trailing or repeated
':') a text has, its tokens are its non-empty fragments, and ':!=::1:' gives
['!=', '1']. -/
theorem tokenization (a : Str) :
    annotation_tokens a = (List.splitOn ':' a).filter (fun t => decide (t ≠ [])) ∧
      (∀ t ∈ annotation_tokens a, t ≠ [] ∧ ':' ∉ t) ∧
      (∀ frs : List Str, (∀ f ∈ frs, ':' ∉ f) →
        annotation_tokens (List.intercalate [':'] frs) =
          frs.filter (fun t => decide (t ≠ []))) ∧
      annotation_tokens ":!=::1:".toList = ["!=".toList, "1".toList] := by
  refine ⟨?_, ?_, ?_, by decide⟩
  · unfold annotation_tokens
    rw [js_split_eq_splitOn]
  · intro t ht
    unfold annotation_tokens at ht
    rw [List.mem_filter] at ht
    exact ⟨by simpa using ht.2, js_split_go_fragments ':' a [] (by simp) t ht.1⟩
  · intro frs hfrs
    cases frs with
    | nil => simp [annotation_tokens, List.intercalate, js_split, js_split_go]
    | cons f rest =>
      unfold annotation_tokens
      rw [← js_join_eq_intercalate, js_split_join ':' (f :: rest) (by simp) hfrs]

/-- Witness of C12: the fragments '', '!=', '', '1', '' give the tokens
'!=' and '1'. -/
theorem tokenization_witness :
    annotation_tokens
        (List.intercalate [':'] [[], "!=".toList, [], "1".toList, []]) =
      [[], "!=".toList, [], "1".toList, []].filter (fun t => decide (t ≠ [])) :=
  (tokenization []).2.2.1 [[], "!=".toList, [], "1".toList, []] (by decide)

/-! ### Splitting at a separator of several characters -/

theorem js_split_go_skip (sep xs rest acc : Str) :
    js_split_go sep xs.length (xs ++ rest) acc = js_split_go sep 0 rest acc := by
  induction xs with
  | nil => rfl
  | cons x xs ih => simpa [js_split_go] using ih

theorem js_split_go_match (sep rest acc : Str) (hsep : sep ≠ []) :
    js_split_go sep 0 (sep ++ rest) acc = acc.reverse :: js_split_go sep 0 rest [] := by
  cases sep with
  | nil => exact absurd rfl hsep
  | cons c cs =>
    have hpre : (c :: cs).isPrefixOf (c :: (cs ++ rest)) = true := by
      rw [List.isPrefixOf_iff_prefix]
      exact ⟨rest, by simp⟩
    have hskip := js_split_go_skip (c :: cs) cs rest []
    show js_split_go (c :: cs) 0 (c :: (cs ++ rest)) acc = _
    rw [js_split_go, if_pos hpre]
    simp only [List.length_cons, Nat.add_sub_cancel]
    rw [hskip]

theorem js_split_go_pass (sep p rest acc : Str)
    (h : ∀ u, u <:+ p → u ≠ [] → ¬ sep <+: u ++ rest) :
    js_split_go sep 0 (p ++ rest) acc = js_split_go sep 0 rest (p.reverse ++ acc) := by
  induction p generalizing acc with
  | nil => rfl
  | cons x p ih =>
    have hx : (sep.isPrefixOf (x :: (p ++ rest))) = false := by
      rw [Bool.eq_false_iff]
      intro hp
      exact h (x :: p) (List.suffix_refl _) (by simp) (List.isPrefixOf_iff_prefix.1 hp)
    have ih' := ih (x :: acc) (fun u hu hne => h u (hu.trans (List.suffix_cons x p)) hne)
    show js_split_go sep 0 (x :: (p ++ rest)) acc = _
    rw [js_split_go, hx]
    simp only [Bool.false_eq_true, if_false]
    rw [ih']
    simp

theorem js_split_go_last (sep a acc : Str) (h : ¬ sep <:+: a) :
    js_split_go sep 0 a acc = [acc.reverse ++ a] := by
  have hpass := js_split_go_pass sep a [] acc (fun u hu _ hpre => h (by
    rw [List.append_nil] at hpre
    exact hpre.isInfix.trans hu.isInfix))
  rw [List.append_nil] at hpass
  rw [hpass]
  simp [js_split_go]

theorem prefix_before_foreign (s u w : Str) (x : Char) (hx : x ∉ s)
    (h : s <+: u ++ x :: w) : s <+: u := by
  induction u generalizing s with
  | nil =>
    rcases List.prefix_cons_iff.1 h with h0 | ⟨t, ht, -⟩
    · rw [h0]
    · exact absurd (by simp [ht]) hx
  | cons y u ih =>
    rw [List.cons_append] at h
    rcases List.prefix_cons_iff.1 h with h0 | ⟨t, ht, hpre⟩
    · rw [h0]; exact List.nil_prefix
    · rw [ht]
      exact (List.prefix_cons_inj y).2 (ih t (fun hm => hx (by simp [ht, hm])) hpre)

theorem js_replace_last (x : Char) (v : Str) (hv : x ∉ v) :
    js_replace [x] [] (v ++ [x]) = v := by
  induction v with
  | nil => simp [js_replace, List.isPrefixOf]
  | cons y v ih =>
    have hxy : ¬ (x = y) := fun e => hv (by simp [e])
    have hv' : x ∉ v := fun hm => hv (List.mem_cons_of_mem _ hm)
    simp [js_replace, List.isPrefixOf, hxy, ih hv']

theorem line_tokens_marked (v a : Str) (hv2 : ¬ robota_suffix <:+: v)
    (ha : ¬ robota_suffix <:+: a) :
    line_tokens (v ++ ['#'] ++ robota_suffix ++ a) = [v ++ ['#'], a] := by
  unfold line_tokens js_split
  rw [List.append_assoc (v ++ ['#']) robota_suffix a]
  rw [js_split_go_pass robota_suffix (v ++ ['#']) (robota_suffix ++ a) []]
  · rw [js_split_go_match robota_suffix a _ (by simp [robota_suffix]),
      js_split_go_last robota_suffix a [] ha]
    simp
  · intro u hu hne hpre
    rcases List.suffix_concat_iff.1 hu with h0 | ⟨t, ht, hsuf⟩
    · exact hne h0
    · rw [ht, List.append_assoc, List.singleton_append] at hpre
      have := prefix_before_foreign robota_suffix t _ '#' (by decide) hpre
      exact hv2 (this.isInfix.trans hsuf.isInfix)

theorem js_trim_spec (v : Str) :
    ∃ l r, v = l ++ js_trim v ++ r ∧ (∀ c ∈ l, js_is_whitespace c = true) ∧
      (∀ c ∈ r, js_is_whitespace c = true) ∧
      (∀ c, (js_trim v).head? = some c → js_is_whitespace c = false) ∧
      (∀ c, (js_trim v).getLast? = some c → js_is_whitespace c = false) := by
  have h1 := List.takeWhile_append_dropWhile js_is_whitespace v
  have h2 := List.takeWhile_append_dropWhile js_is_whitespace
    (v.dropWhile js_is_whitespace).reverse
  have h3 : v.dropWhile js_is_whitespace =
      js_trim v ++ ((v.dropWhile js_is_whitespace).reverse.takeWhile js_is_whitespace).reverse := by
    have := congrArg List.reverse h2
    rw [List.reverse_reverse, List.reverse_append] at this
    exact this.symm
  refine ⟨v.takeWhile js_is_whitespace,
    ((v.dropWhile js_is_whitespace).reverse.takeWhile js_is_whitespace).reverse, ?_, ?_, ?_, ?_, ?_⟩
  · rw [List.append_assoc, ← h3, h1]
  · intro c hc
    exact List.mem_takeWhile_imp hc
  · intro c hc
    exact List.mem_takeWhile_imp (List.mem_reverse.1 hc)
  · intro c hc
    have hd := List.head?_dropWhile_not js_is_whitespace v
    have hhead : (v.dropWhile js_is_whitespace).head? = some c := by
      rw [h3, List.head?_append, hc]
      rfl
    rw [hhead] at hd
    exact hd
  · intro c hc
    have hd := List.head?_dropWhile_not js_is_whitespace
      (v.dropWhile js_is_whitespace).reverse
    unfold js_trim at hc
    rw [List.getLast?_reverse] at hc
    rw [hc] at hd
    exact hd

/-- C13: on a line v ++ '#' ++ '!robota' ++ a, where v has no '#' and neither
v nor a contains '!robota', the subject is v without its leading and trailing
whitespace (and that is all `trim` removes), the annotation text is a, and
`validate_line` executes the objects parsed from the tokens of a against that
subject. -/
theorem subject_extraction (v a : Str) (hv : '#' ∉ v) (hv2 : ¬ robota_suffix <:+: v)
    (ha : ¬ robota_suffix <:+: a) :
    line_input (v ++ ['#'] ++ robota_suffix ++ a) = js_trim v ∧
      robota_annotation (v ++ ['#'] ++ robota_suffix ++ a) = a ∧
      (∀ fuel console, validate_line fuel console (v ++ ['#'] ++ robota_suffix ++ a) =
        (parse_annotation_tokens fuel console (annotation_tokens a)).map (fun r =>
          (r.1.map (fun o => executor (js_trim v) o.validator_function o.parameters o.name),
            r.2))) ∧
      (∃ l r, v = l ++ js_trim v ++ r ∧ (∀ c ∈ l, js_is_whitespace c = true) ∧
        (∀ c ∈ r, js_is_whitespace c = true) ∧
        (∀ c, (js_trim v).head? = some c → js_is_whitespace c = false) ∧
        (∀ c, (js_trim v).getLast? = some c → js_is_whitespace c = false)) := by
  have htok := line_tokens_marked v a hv2 ha
  have hin : line_input (v ++ ['#'] ++ robota_suffix ++ a) = js_trim v := by
    unfold line_input
    rw [htok]
    simp [js_replace_last '#' v hv]
  have han : robota_annotation (v ++ ['#'] ++ robota_suffix ++ a) = a := by
    unfold robota_annotation
    rw [htok]
    rfl
  refine ⟨hin, han, fun fuel console => ?_, js_trim_spec v⟩
  unfold validate_line
  rw [hin, han]
  cases parse_annotation_tokens fuel console (annotation_tokens a) with
  | none => rfl
  | some r => rfl

/-- Witness of C13: on ' 1  #!robota:!=:2' the subject is '1' and the
annotation text is ':!=:2'. -/
theorem subject_extraction_witness :
    line_input (" 1  ".toList ++ ['#'] ++ robota_suffix ++ ":!=:2".toList) =
        js_trim " 1  ".toList ∧
      js_trim " 1  ".toList = "1".toList ∧
      robota_annotation (" 1  ".toList ++ ['#'] ++ robota_suffix ++ ":!=:2".toList) =
        ":!=:2".toList :=
  have h := subject_extraction " 1  ".toList ":!=:2".toList (by decide) (by decide) (by decide)
  ⟨h.1, by decide, h.2.1⟩

/-! ### Which runs return -/

theorem returns_from_again (st st' : LoopState) (o : List GeneratedObject)
    (h : loop_iteration validators st = .again st') :
    returns_from st o ↔ returns_from st' o := by
  constructor
  · rintro ⟨fuel, c, hr⟩
    cases fuel with
    | zero => simp [parse_loop] at hr
    | succ n =>
      simp only [parse_loop, h] at hr
      exact ⟨n, c, hr⟩
  · rintro ⟨n, c, hr⟩
    exact ⟨n + 1, c, by simpa only [parse_loop, h] using hr⟩

theorem returns_from_returned (st : LoopState) (o o' : List GeneratedObject) (c : List Str)
    (h : loop_iteration validators st = .returned o c) :
    returns_from st o' ↔ o' = o := by
  constructor
  · rintro ⟨fuel, c', hr⟩
    cases fuel with
    | zero => simp [parse_loop] at hr
    | succ n =>
      simp only [parse_loop, h, Option.some.injEq, Prod.mk.injEq] at hr
      exact hr.1.symm
  · rintro rfl
    exact ⟨1, c, by simp only [parse_loop, h]⟩

/-- Once two parameters have been collected for `!=`, the loop never returns. -/
theorem doomed (tokens : List Str) (fuel : Nat) (objs : List GeneratedObject) (ps : List Str)
    (c : List Str) (h : 2 ≤ ps.length) :
    parse_loop validators fuel ⟨tokens, objs, some different, ps, c⟩ = none := by
  induction tokens generalizing fuel ps c with
  | nil => exact stuck_at_end validators fuel objs different ps c (by simp [different]; omega)
  | cons t ts ih =>
    cases fuel with
    | zero => rfl
    | succ n =>
      simp only [parse_loop]
      by_cases ht : t = different_operator
      · rw [ht, iteration_skip_operator _ _ _ _ _ (by simp [different]; omega)]
        exact ih n ps _ h
      · rw [iteration_parameter _ _ _ _ _ _ ht]
        exact ih n (ps ++ [t]) c (by simp; omega)

theorem never_returns_from (st : LoopState) (h : ∀ fuel, parse_loop validators fuel st = none)
    (o : List GeneratedObject) : ¬ returns_from st o := by
  rintro ⟨fuel, c, hr⟩
  rw [h fuel] at hr
  exact absurd hr (by simp)

theorem returns_after_operator (ts : List Str) (prev : Str) (objs : List GeneratedObject)
    (ps : List Str) (c : List Str)
    (hps : ps.length = if prev = different_operator then 0 else 1) :
    (∃ r, returns_from ⟨ts, objs, some different, ps, c⟩ r) ↔
      (List.Chain one_is_operator prev ts ∧
        (prev :: ts).getLast? ≠ some different_operator) := by
  induction ts generalizing prev objs ps c with
  | nil =>
    by_cases hprev : prev = different_operator
    · rw [if_pos hprev] at hps
      have hn : ∀ fuel, parse_loop validators fuel ⟨[], objs, some different, ps, c⟩ = none :=
        fun fuel => stuck_at_end validators fuel objs different ps c (by simp [different, hps])
      constructor
      · rintro ⟨r, hr⟩
        exact absurd hr (never_returns_from _ hn r)
      · rintro ⟨-, hlast⟩
        exact absurd (by simp [hprev]) hlast
    · rw [if_neg hprev] at hps
      have hit := iteration_emit_end objs different ps c (by simp [different, hps])
      constructor
      · intro _
        exact ⟨List.Chain.nil, by simpa using hprev⟩
      · intro _
        exact ⟨_, (returns_from_returned _ _ _ _ hit).2 rfl⟩
  | cons t ts ih =>
    have hlast : (prev :: t :: ts).getLast? = (t :: ts).getLast? := by simp
    rw [hlast, List.chain_cons, and_assoc]
    by_cases ht : t = different_operator
    · have hR : one_is_operator prev t := Or.inr ht
      have hnext : ∃ objs' c', loop_iteration validators ⟨t :: ts, objs, some different, ps, c⟩ =
          .again ⟨ts, objs', some different, [], c'⟩ := by
        by_cases hprev : prev = different_operator
        · rw [if_pos hprev] at hps
          have hnil : ps = [] := List.length_eq_zero.1 hps
          refine ⟨objs, c ++ [skipping_message different ps], ?_⟩
          rw [ht, iteration_skip_operator _ _ _ _ _ (by simp [different, hps]), hnil]
        · rw [if_neg hprev] at hps
          exact ⟨_, c, by rw [ht, iteration_emit_operator _ _ _ _ _ (by simp [different, hps])]⟩
      obtain ⟨objs', c', hit⟩ := hnext
      have hih := ih t objs' [] c' (by simp [ht])
      constructor
      · rintro ⟨r, hr⟩
        exact ⟨hR, hih.1 ⟨r, (returns_from_again _ _ r hit).1 hr⟩⟩
      · rintro ⟨-, hrest⟩
        obtain ⟨r, hr⟩ := hih.2 hrest
        exact ⟨r, (returns_from_again _ _ r hit).2 hr⟩
    · have hit := iteration_parameter t ts objs different ps c ht
      by_cases hprev : prev = different_operator
      · rw [if_pos hprev] at hps
        have hR : one_is_operator prev t := Or.inl hprev
        have hih := ih t objs (ps ++ [t]) c (by simp [ht, hps])
        constructor
        · rintro ⟨r, hr⟩
          exact ⟨hR, hih.1 ⟨r, (returns_from_again _ _ r hit).1 hr⟩⟩
        · rintro ⟨-, hrest⟩
          obtain ⟨r, hr⟩ := hih.2 hrest
          exact ⟨r, (returns_from_again _ _ r hit).2 hr⟩
      · rw [if_neg hprev] at hps
        constructor
        · rintro ⟨r, hr⟩
          have hr' := (returns_from_again _ _ r hit).1 hr
          exact absurd hr' (never_returns_from _
            (fun fuel => doomed ts fuel objs (ps ++ [t]) c (by simp [hps])) r)
        · rintro ⟨hR, -⟩
          rcases hR with h | h
          · exact absurd h hprev
          · exact absurd h ht

theorem state_at_end (tokens : List Str) (objs : List GeneratedObject) (ps : List Str)
    (c : List Str) :
    ∃ objs' ps' c', loop_state_after validators tokens.length
        ⟨tokens, objs, some different, ps, c⟩ =
      some ⟨[], objs', some different, ps', c'⟩ := by
  induction tokens generalizing objs ps c with
  | nil => exact ⟨objs, ps, c, rfl⟩
  | cons t ts ih =>
    simp only [List.length_cons, loop_state_after]
    by_cases ht : t = different_operator
    · by_cases hlen : ps.length = different.num_inputs
      · rw [ht, iteration_emit_operator _ _ _ _ _ hlen]
        exact ih _ _ _
      · rw [ht, iteration_skip_operator _ _ _ _ _ hlen]
        exact ih _ _ _
    · rw [iteration_parameter _ _ _ _ _ _ ht]
      exact ih _ _ _

theorem stuck_for_ever (registry : List Validator) (m : Nat) (objs : List GeneratedObject)
    (v : Validator) (ps : List Str) (c : List Str) (h : ps.length ≠ v.num_inputs) :
    ∃ c', loop_state_after registry m ⟨[], objs, some v, ps, c⟩ =
      some ⟨[], objs, some v, ps, c'⟩ := by
  induction m generalizing c with
  | zero => exact ⟨c, rfl⟩
  | succ m ih =>
    simp only [loop_state_after]
    rw [iteration_skip_end registry objs v ps c h]
    exact ih _

theorem parse_returns_iff (tokens : List Str) (console : List Str) :
    (∃ fuel r, parse_annotation_tokens fuel console tokens = some r) ↔
      returns_condition tokens := by
  cases tokens with
  | nil =>
    constructor
    · intro _; exact Or.inl rfl
    · intro _
      refine ⟨1, ([], console ++ ["Invalid start character!".toList]), ?_⟩
      simp only [parse_annotation_tokens, parse_annotation_tokens_in, parse_loop, initial_state]
      rw [iteration_invalid_start [] [] [] console (by simp)]
  | cons t ts =>
    by_cases ht : t = different_operator
    · have hit : loop_iteration validators (initial_state console (t :: ts)) =
          .again ⟨ts, [], some different, [], console⟩ := by
        rw [ht]; exact iteration_adopt ts [] [] console
      have hG := returns_after_operator ts t [] [] console (by simp [ht])
      have hleft : (∃ fuel r, parse_annotation_tokens fuel console (t :: ts) = some r) ↔
          ∃ r, returns_from ⟨ts, [], some different, [], console⟩ r := by
        constructor
        · rintro ⟨fuel, ⟨o, c⟩, hr⟩
          exact ⟨o, (returns_from_again _ _ o hit).1 ⟨fuel, c, hr⟩⟩
        · rintro ⟨o, hr⟩
          obtain ⟨fuel, c, hr'⟩ := (returns_from_again _ _ o hit).2 hr
          exact ⟨fuel, (o, c), hr'⟩
      rw [hleft, hG]
      constructor
      · rintro ⟨hchain, hlast⟩
        exact Or.inr (Or.inr ⟨hlast, hchain⟩)
      · rintro (h | h | ⟨hlast, hchain⟩)
        · exact absurd h (by simp)
        · exact absurd (by simp [ht]) h
        · exact ⟨hchain, hlast⟩
    · constructor
      · intro _
        exact Or.inr (Or.inl (by simpa using ht))
      · intro _
        refine ⟨1, ([], console ++ ["Invalid start character!".toList]), ?_⟩
        simp only [parse_annotation_tokens, parse_annotation_tokens_in, parse_loop,
          initial_state]
        rw [iteration_invalid_start (t :: ts) [] [] console (by simpa using ht)]

/-- C14: with the shipped registry, `parse_annotation_tokens` returns on a
token list if and only if the list is empty, or its first token is not '!=',
or its last token is not '!=' and no two adjacent tokens are both different
from '!='. On every other list the loop reaches the end of the tokens with
`different` still the current validator and a parameter count other than 1,
and from then on every iteration leaves tokens, objects, validator and
parameters as they are (only the console grows), so the call never returns. -/
theorem exact_termination_condition (tokens : List Str) (console : List Str) :
    ((∃ fuel r, parse_annotation_tokens fuel console tokens = some r) ↔
        returns_condition tokens) ∧
      (¬ returns_condition tokens →
        ∃ n objs ps c,
          loop_state_after validators n (initial_state console tokens) =
            some ⟨[], objs, some different, ps, c⟩ ∧
          ps.length ≠ different.num_inputs ∧
          (∀ m, ∃ c', loop_state_after validators (n + m) (initial_state console tokens) =
            some ⟨[], objs, some different, ps, c'⟩) ∧
          ∀ fuel, parse_annotation_tokens fuel console tokens = none) := by
  have hiff := parse_returns_iff tokens console
  refine ⟨hiff, fun hnot => ?_⟩
  have hnone : ∀ fuel, parse_annotation_tokens fuel console tokens = none := by
    intro fuel
    cases hr : parse_annotation_tokens fuel console tokens with
    | none => rfl
    | some r => exact absurd (hiff.1 ⟨fuel, r, hr⟩) hnot
  cases tokens with
  | nil => exact absurd (Or.inl rfl) hnot
  | cons t ts =>
    have ht : t = different_operator := by
      by_contra hne
      exact hnot (Or.inr (Or.inl (by simpa using hne)))
    obtain ⟨objs, ps, c, hend⟩ := state_at_end ts [] [] console
    have hreach : loop_state_after validators (1 + ts.length)
        (initial_state console (t :: ts)) = some ⟨[], objs, some different, ps, c⟩ := by
      apply loop_state_after_add validators 1 ts.length _
        ⟨ts, [], some different, [], console⟩ _ _ hend
      simp only [loop_state_after, initial_state]
      rw [ht, iteration_adopt]
    have hlen : ps.length ≠ different.num_inputs := by
      intro hlen
      have h1 := parse_loop_after validators (1 + ts.length) 1 _ _ hreach
      simp only [parse_loop] at h1
      rw [iteration_emit_end objs different ps c hlen] at h1
      have h2 := hnone (1 + ts.length + 1)
      unfold parse_annotation_tokens parse_annotation_tokens_in at h2
      simp only [parse_loop] at h2
      rw [h2] at h1
      exact absurd h1 (by simp)
    refine ⟨1 + ts.length, objs, ps, c, hreach, hlen, fun m => ?_, hnone⟩
    obtain ⟨c', hc'⟩ := stuck_for_ever validators m objs different ps c hlen
    exact ⟨c', loop_state_after_add validators _ m _ _ _ hreach hc'⟩

/-- Witness of C14: ['!='], ['!=', '1', '2'] and ['!=', '1', '!='] never
return; ['!=', '!=', '1'] does. -/
theorem exact_termination_condition_witness :
    (∀ fuel, parse_annotation_tokens fuel [] ["!=".toList] = none) ∧
      (∀ fuel, parse_annotation_tokens fuel []
        ["!=".toList, "1".toList, "2".toList] = none) ∧
      (∀ fuel, parse_annotation_tokens fuel []
        ["!=".toList, "1".toList, "!=".toList] = none) ∧
      (∃ fuel r, parse_annotation_tokens fuel []
        ["!=".toList, "!=".toList, "1".toList] = some r) :=
  ⟨by
      obtain ⟨n, objs, ps, c, -, -, -, h⟩ :=
        (exact_termination_condition ["!=".toList] []).2 (by simp [returns_condition, one_is_operator, different_operator])
      exact h,
   by
      obtain ⟨n, objs, ps, c, -, -, -, h⟩ :=
        (exact_termination_condition ["!=".toList, "1".toList, "2".toList] []).2 (by simp [returns_condition, one_is_operator, different_operator])
      exact h,
   by
      obtain ⟨n, objs, ps, c, -, -, -, h⟩ :=
        (exact_termination_condition ["!=".toList, "1".toList, "!=".toList] []).2 (by simp [returns_condition, one_is_operator, different_operator])
      exact h,
   (exact_termination_condition ["!=".toList, "!=".toList, "1".toList] []).1.2 (by simp [returns_condition, one_is_operator, different_operator])⟩

/-! ### The reference state machine -/

theorem reference_agrees_from (tokens : List Str) (objs : List GeneratedObject)
    (ps : List Str) (c : List Str) (fuel : Nat) (r : List GeneratedObject) (c' : List Str)
    (hps : ps.length ≤ 1)
    (h : parse_loop validators fuel ⟨tokens, objs, some different, ps, c⟩ = some (r, c')) :
    r = reference_fold validators tokens (some different) ps objs := by
  induction tokens generalizing objs ps c fuel with
  | nil =>
    cases fuel with
    | zero => simp [parse_loop] at h
    | succ n =>
      by_cases hlen : ps.length = different.num_inputs
      · simp only [parse_loop] at h
        rw [iteration_emit_end objs different ps c hlen] at h
        simp only [Option.some.injEq, Prod.mk.injEq] at h
        simp [reference_fold, hlen, ← h.1]
      · rw [stuck_at_end validators (n + 1) objs different ps c hlen] at h
        exact absurd h (by simp)
  | cons t ts ih =>
    cases fuel with
    | zero => simp [parse_loop] at h
    | succ n =>
      simp only [parse_loop] at h
      by_cases ht : t = different_operator
      · by_cases hlen : ps.length = different.num_inputs
        · rw [ht, iteration_emit_operator _ _ _ _ _ hlen] at h
          have := ih _ [] c n (by simp) h
          simp [reference_fold, ht, find_validator_operator, hlen, this]
        · rw [ht, iteration_skip_operator _ _ _ _ _ hlen] at h
          have hnil : ps = [] := by
            have : ps.length = 0 := by
              have h1 : ps.length ≠ 1 := by simpa [different] using hlen
              omega
            exact List.length_eq_zero.1 this
          rw [hnil] at h
          have := ih objs [] _ n (by simp) h
          simp [reference_fold, ht, find_validator_operator, hnil, different, this]
      · rw [iteration_parameter _ _ _ _ _ _ ht] at h
        by_cases hlen : ps.length = 0
        · have := ih objs (ps ++ [t]) c n (by simp [hlen]) h
          simp [reference_fold, find_validator_other t ht, this]
        · have h' : parse_loop validators n ⟨ts, objs, some different, ps ++ [t], c⟩ =
              some (r, c') := h
          rw [doomed ts n objs (ps ++ [t]) c (by simp; omega)] at h'
          exact absurd h' (by simp)

/-- C15: whenever `parse_annotation_tokens` returns on a token list, its
result is the result of the reference state machine on that list (which
adopts the new operator and resets the parameters after every group, emitted
or not). -/
theorem agrees_with_reference (tokens : List Str) (fuel : Nat) (console : List Str)
    (objs : List GeneratedObject) (c : List Str)
    (h : parse_annotation_tokens fuel console tokens = some (objs, c)) :
    objs = reference_parse tokens := by
  unfold parse_annotation_tokens parse_annotation_tokens_in at h
  cases fuel with
  | zero => simp [parse_loop] at h
  | succ n =>
    simp only [parse_loop, initial_state] at h
    cases tokens with
    | nil =>
      rw [iteration_invalid_start [] [] [] console (by simp)] at h
      simp only [Option.some.injEq, Prod.mk.injEq] at h
      simp [reference_parse, reference_fold, ← h.1]
    | cons t ts =>
      by_cases ht : t = different_operator
      · rw [ht, iteration_adopt] at h
        have := reference_agrees_from ts [] [] console n objs c (by simp) h
        simp [reference_parse, reference_fold, ht, find_validator_operator, this]
      · rw [iteration_invalid_start (t :: ts) [] [] console (by simpa using ht)] at h
        simp only [Option.some.injEq, Prod.mk.injEq] at h
        simp [reference_parse, reference_fold, find_validator_other t ht, ← h.1]

/-- Witness of C15: on ['!=', '!=', '1'], where the code skips the adoption,
the object returned is the one the reference state machine gives. -/
theorem agrees_with_reference_witness :
    [different_object "1".toList] =
      reference_parse ["!=".toList, "!=".toList, "1".toList] :=
  agrees_with_reference ["!=".toList, "!=".toList, "1".toList] 4 []
    [different_object "1".toList] [skipping_message different []] rfl

/-! ### The text of a cell -/

theorem js_includes_iff (pat s : Str) : js_includes pat s = true ↔ pat <:+: s := by
  induction s with
  | nil => simp [js_includes]
  | cons c cs ih =>
    rw [List.infix_cons_iff, ← ih, ← List.isPrefixOf_iff_prefix]
    simp [js_includes]

theorem js_split_go_head (sep s acc : Str) :
    ∃ f rest, s = f ++ rest ∧ (js_split_go sep 0 s acc).headD [] = acc.reverse ++ f ∧
      (rest = [] ∨ sep <+: rest) ∧ ∀ u, u <:+ f → u ≠ [] → ¬ sep <+: u ++ rest := by
  induction s generalizing acc with
  | nil => exact ⟨[], [], rfl, by simp [js_split_go], Or.inl rfl, fun u hu hne => by simp_all⟩
  | cons x s ih =>
    by_cases hpre : sep.isPrefixOf (x :: s) = true
    · refine ⟨[], x :: s, rfl, ?_, Or.inr (List.isPrefixOf_iff_prefix.1 hpre), ?_⟩
      · rw [js_split_go, if_pos hpre]
        simp
      · intro u hu hne
        exact absurd (List.suffix_nil.1 hu) hne
    · obtain ⟨f, rest, hs, hhead, hrest, hno⟩ := ih (x :: acc)
      refine ⟨x :: f, rest, by rw [hs]; rfl, ?_, hrest, ?_⟩
      · rw [js_split_go, if_neg hpre, hhead]
        simp
      · intro u hu hne hp
        rcases List.suffix_cons_iff.1 hu with h | h
        · rw [h, List.cons_append, ← hs] at hp
          exact hpre (List.isPrefixOf_iff_prefix.2 hp)
        · exact hno u h hne hp

theorem cell_content_spec (text : Str) :
    ∃ rest, text = cell_content text ++ rest ∧ (rest = [] ∨ feedback_separator <+: rest) ∧
      ∀ u, u <:+ cell_content text → u ≠ [] → ¬ feedback_separator <+: u ++ rest := by
  obtain ⟨f, rest, hs, hhead, hrest, hno⟩ := js_split_go_head feedback_separator text []
  have hc : cell_content text = f := by
    unfold cell_content js_split
    rw [hhead]
    rfl
  rw [hc]
  exact ⟨rest, hs, hrest, hno⟩

theorem append_line_feedback (t : Str) (avr : List ValidationResult) :
    avr.foldl (fun (cell : CodeCell) vr =>
        ({ text := cell.text ++ ['#', ' '] ++ vr.message ++ ['\n'] } : CodeCell)) ⟨t⟩ =
      ⟨t ++ line_feedback avr⟩ := by
  induction avr generalizing t with
  | nil => simp [line_feedback]
  | cons vr vrs ih =>
    rw [List.foldl_cons]
    show List.foldl _ (CodeCell.mk (t ++ ['#', ' '] ++ vr.message ++ ['\n'])) vrs = _
    rw [ih, line_feedback]
    simp only [List.append_assoc]

theorem append_feedback_text (t : Str) (results : List (List ValidationResult)) :
    append_feedback ⟨t⟩ results = ⟨t ++ feedback_text results⟩ := by
  unfold append_feedback
  induction results generalizing t with
  | nil => simp [feedback_text]
  | cons avr rest ih =>
    rw [List.foldl_cons, append_line_feedback, ih, feedback_text, List.append_assoc]

theorem validate_lines_console (fuel : Nat) (ls : List Str) (c : List Str) :
    validate_lines fuel ls c =
      (validate_lines fuel ls []).map (fun r => (r.1, c ++ r.2)) := by
  induction ls generalizing c with
  | nil => simp [validate_lines]
  | cons l ls ih =>
    simp only [validate_lines]
    rw [validate_line_console fuel c l]
    cases h0 : validate_line fuel [] l with
    | none => rfl
    | some x =>
      obtain ⟨r, c1⟩ := x
      simp only [Option.map_some']
      rw [ih (c ++ c1), ih c1]
      cases validate_lines fuel ls [] with
      | none => rfl
      | some y => simp

theorem validate_lines_results (fuel : Nat) (ls : List Str) (c : List Str)
    (rs : List (List ValidationResult)) (c' : List Str)
    (h : validate_lines fuel ls c = some (rs, c')) :
    List.Forall₂ (fun l r => ∃ c2, validate_line fuel [] l = some (r, c2)) ls rs := by
  induction ls generalizing c rs with
  | nil =>
    simp only [validate_lines, Option.some.injEq, Prod.mk.injEq] at h
    rw [← h.1]
    exact List.Forall₂.nil
  | cons l ls ih =>
    simp only [validate_lines] at h
    rw [validate_line_console fuel c l] at h
    cases h0 : validate_line fuel [] l with
    | none => rw [h0] at h; simp at h
    | some x =>
      obtain ⟨r, c1⟩ := x
      rw [h0] at h
      simp only [Option.map_some'] at h
      cases h1 : validate_lines fuel ls (c ++ c1) with
      | none => rw [h1] at h; simp at h
      | some y =>
        obtain ⟨rs', c2⟩ := y
        rw [h1] at h
        simp only [Option.some.injEq, Prod.mk.injEq] at h
        rw [← h.1]
        exact List.Forall₂.cons ⟨c1, h0⟩ (ih _ _ (h.2 ▸ h1))

theorem validate_lines_returns (fuel : Nat) (ls : List Str) (c : List Str)
    (h : ∀ l ∈ ls, ∃ r, validate_line fuel [] l = some r) :
    ∃ out, validate_lines fuel ls c = some out := by
  induction ls generalizing c with
  | nil => exact ⟨_, rfl⟩
  | cons l ls ih =>
    obtain ⟨⟨r, c1⟩, hr⟩ := h l (List.mem_cons_self _ _)
    obtain ⟨⟨rs, c2⟩, hrs⟩ := ih (c ++ c1) (fun x hx => h x (List.mem_cons_of_mem _ hx))
    refine ⟨(r :: rs, c2), ?_⟩
    simp only [validate_lines]
    rw [validate_line_console fuel c l, hr]
    simp only [Option.map_some']
    rw [hrs]

theorem execute_cell_annotations_eq (fuel : Nat) (console : List Str) (cell : CodeCell) :
    execute_cell_annotations fuel console cell =
      (validate_lines fuel (annotated_lines (cell_content cell.text)) console).map (fun r =>
        { code_cell := ⟨cell_content cell.text ++ feedback_separator ++ feedback_text r.1⟩
          content := cell_content cell.text
          console := r.2 }) := by
  have hlines : (js_split ['\n'] (cell_content cell.text)).filter
      (fun l => js_includes robota_suffix l) = annotated_lines (cell_content cell.text) := by
    unfold annotated_lines
    rw [js_split_eq_splitOn]
    apply List.filter_congr
    intro l _
    rw [Bool.eq_iff_iff, js_includes_iff, decide_eq_true_iff]
  unfold execute_cell_annotations
  simp only []
  rw [show (js_split ['\n'] ((js_split feedback_separator cell.text).headD [])).filter
      (fun l => js_includes robota_suffix l) = annotated_lines (cell_content cell.text)
    from hlines]
  cases validate_lines fuel (annotated_lines (cell_content cell.text)) console with
  | none => rfl
  | some r => simp [append_feedback_text, cell_content]

theorem separator_border (k : Nat) (h0 : 0 < k) (hk : k < 16)
    (h : List.drop k feedback_separator <+: feedback_separator) : k = 15 := by
  have key : ∀ k, k < 16 → 0 < k →
      (List.drop k feedback_separator).isPrefixOf feedback_separator = true → k = 15 := by
    decide
  exact key k hk h0 (List.isPrefixOf_iff_prefix.2 h)

theorem content_before_separator (content fb : Str)
    (hno : ¬ feedback_separator <:+: content)
    (hend : ¬ "\n# **Feedback**".toList <:+ content) :
    cell_content (content ++ feedback_separator ++ fb) = content := by
  unfold cell_content js_split
  rw [List.append_assoc, js_split_go_pass feedback_separator content (feedback_separator ++ fb) [],
    js_split_go_match feedback_separator fb _ (by decide)]
  · simp
  · intro u hu hne hp
    by_cases hlen : feedback_separator.length ≤ u.length
    · have hpre : feedback_separator <+: u :=
        List.prefix_of_prefix_length_le hp (List.prefix_append u _) hlen
      exact hno (hpre.isInfix.trans hu.isInfix)
    · have hlen' : u.length < 16 := by
        have : feedback_separator.length = 16 := by decide
        omega
      have hu' : u <+: feedback_separator :=
        List.prefix_of_prefix_length_le (List.prefix_append u _) hp (by omega)
      obtain ⟨s', hs'⟩ := hu'
      have hdrop : List.drop u.length feedback_separator = s' := by
        rw [← hs', List.drop_left]
      have htake : List.take u.length feedback_separator = u := by
        rw [← hs', List.take_left]
      have hs'pre : s' <+: feedback_separator := by
        have h1 : u ++ s' <+: u ++ (feedback_separator ++ fb) := by rw [hs']; exact hp
        have h2 : s' <+: feedback_separator ++ fb := (List.prefix_append_right_inj u).1 h1
        apply List.prefix_of_prefix_length_le h2 (List.prefix_append _ _)
        rw [← hs']
        simp
      have hpos : 0 < u.length := List.length_pos.2 hne
      have h15 := separator_border u.length hpos hlen' (hdrop ▸ hs'pre)
      have hu15 : u = "\n# **Feedback**".toList := by
        rw [← htake, h15]
        decide
      exact hend (hu15 ▸ hu)

theorem cell_content_no_separator (text : Str) :
    ¬ feedback_separator <:+: cell_content text := by
  obtain ⟨rest, -, -, hno⟩ := cell_content_spec text
  rintro ⟨a, b, hab⟩
  have hsuf : feedback_separator ++ b <:+ cell_content text := ⟨a, by rw [← hab]; simp⟩
  exact hno _ hsuf (by simp [feedback_separator]) ⟨b ++ rest, by simp⟩

/-- C16, as stated, fails: on the cell text 'x' ++ newline ++ '# **Feedback**'
(no separator, since the final newline is missing) the first run appends a
separator, and the second run cuts at the separator that the user's last
line forms with the first character of the appended one, so the two texts
differ. -/
theorem feedback_replaced_counterexample :
    execute_cell_annotations 5 [] ⟨"x\n# **Feedback**".toList⟩ =
        some ⟨⟨"x\n# **Feedback**\n# **Feedback**\n".toList⟩, "x\n# **Feedback**".toList, []⟩ ∧
      execute_cell_annotations 5 [] ⟨"x\n# **Feedback**\n# **Feedback**\n".toList⟩ =
        some ⟨⟨"x\n# **Feedback**\n".toList⟩, "x".toList, []⟩ ∧
      "x\n# **Feedback**\n".toList ≠ "x\n# **Feedback**\n# **Feedback**\n".toList := by
  decide

/-- C16, amended: when the content of the cell (its text before the first
feedback separator) does not end with the separator deprived of its final
newline, and a first run of `execute_cell_annotations` returns, a second run
on the cell it left returns too and leaves the same cell text. -/
theorem feedback_replaced (fuel : Nat) (console : List Str) (cell : CodeCell) (out1 : CellRun)
    (h1 : execute_cell_annotations fuel console cell = some out1)
    (hend : ¬ "\n# **Feedback**".toList <:+ cell_content cell.text) :
    ∃ out2, execute_cell_annotations fuel out1.console out1.code_cell = some out2 ∧
      out2.code_cell.text = out1.code_cell.text := by
  rw [execute_cell_annotations_eq] at h1
  cases hv : validate_lines fuel (annotated_lines (cell_content cell.text)) console with
  | none => rw [hv] at h1; simp at h1
  | some r =>
    obtain ⟨rs, c1⟩ := r
    rw [hv] at h1
    simp only [Option.map_some', Option.some.injEq] at h1
    subst h1
    have hcontent := content_before_separator (cell_content cell.text) (feedback_text rs)
      (cell_content_no_separator cell.text) hend
    rw [validate_lines_console] at hv
    cases hv0 : validate_lines fuel (annotated_lines (cell_content cell.text)) [] with
    | none => rw [hv0] at hv; simp at hv
    | some r0 =>
      rw [hv0] at hv
      simp only [Option.map_some', Option.some.injEq, Prod.mk.injEq] at hv
      refine ⟨⟨⟨cell_content cell.text ++ feedback_separator ++ feedback_text rs⟩,
        cell_content cell.text, c1 ++ r0.2⟩, ?_, rfl⟩
      rw [execute_cell_annotations_eq]
      simp only [hcontent]
      rw [validate_lines_console, hv0]
      simp [hv.1]

/-- Witness of C16 (amended): on the cell '1 #!robota:!=:2' a second run
leaves the text of the first. -/
theorem feedback_replaced_witness :
    ∃ out2,
      execute_cell_annotations 5 []
          ⟨"1 #!robota:!=:2\n# **Feedback**\n# Validator different gave result true for parameters 2.\n".toList⟩ =
        some out2 ∧
      out2.code_cell.text =
        "1 #!robota:!=:2\n# **Feedback**\n# Validator different gave result true for parameters 2.\n".toList :=
  feedback_replaced 5 [] ⟨"1 #!robota:!=:2".toList⟩
    ⟨⟨"1 #!robota:!=:2\n# **Feedback**\n# Validator different gave result true for parameters 2.\n".toList⟩,
      "1 #!robota:!=:2".toList, []⟩
    (by decide) (by decide)

/-- C17: when `execute_cell_annotations` returns, the text of the cell is
content ++ separator ++ feedback, where content is the text before the first
feedback separator of the original text (the whole text when it has none)
and feedback concatenates, over the lines of content that contain '!robota'
from top to bottom and over the results of each line in order, '# ' ++
message ++ newline; the call returns as soon as every such line validates. -/
theorem cell_text_produced (fuel : Nat) (console : List Str) (cell : CodeCell) :
    (∀ out, execute_cell_annotations fuel console cell = some out →
        ∃ results,
          List.Forall₂ (fun l r => ∃ c, validate_line fuel [] l = some (r, c))
            (annotated_lines (cell_content cell.text)) results ∧
          out.code_cell.text =
            cell_content cell.text ++ feedback_separator ++ feedback_text results) ∧
      ((∀ l ∈ annotated_lines (cell_content cell.text),
          (validate_line fuel [] l).isSome = true) →
        ∃ out, execute_cell_annotations fuel console cell = some out) ∧
      (∃ rest, cell.text = cell_content cell.text ++ rest ∧
        (rest = [] ∨ feedback_separator <+: rest) ∧
        ∀ u, u <:+ cell_content cell.text → u ≠ [] → ¬ feedback_separator <+: u ++ rest) := by
  refine ⟨fun out h => ?_, fun h => ?_, cell_content_spec cell.text⟩
  · rw [execute_cell_annotations_eq] at h
    cases hv : validate_lines fuel (annotated_lines (cell_content cell.text)) console with
    | none => rw [hv] at h; simp at h
    | some r =>
      obtain ⟨rs, c1⟩ := r
      rw [hv] at h
      simp only [Option.map_some', Option.some.injEq] at h
      subst h
      exact ⟨rs, validate_lines_results fuel _ console rs c1 hv, rfl⟩
  · obtain ⟨r, hr⟩ := validate_lines_returns fuel _ console
      (fun l hl => Option.isSome_iff_exists.1 (h l hl))
    rw [execute_cell_annotations_eq, hr]
    exact ⟨_, rfl⟩

set_option maxRecDepth 8000 in
/-- Witness of C17: a cell with two annotated lines and old feedback; the old
feedback is replaced by one line per result. -/
theorem cell_text_produced_witness :
    (∃ out, execute_cell_annotations 5 []
        ⟨"1 #!robota:!=:1\nb\n2 #!robota:!=:1\n# **Feedback**\n# old\n".toList⟩ = some out) ∧
      (execute_cell_annotations 5 []
          ⟨"1 #!robota:!=:1\nb\n2 #!robota:!=:1\n# **Feedback**\n# old\n".toList⟩).map
          (fun out => out.code_cell.text) =
        some ("1 #!robota:!=:1\nb\n2 #!robota:!=:1\n# **Feedback**\n".toList ++
          "# Validator different gave result false for parameters 1.\n".toList ++
          "# Validator different gave result true for parameters 1.\n".toList) :=
  ⟨(cell_text_produced 5 []
      ⟨"1 #!robota:!=:1\nb\n2 #!robota:!=:1\n# **Feedback**\n# old\n".toList⟩).2.1
      (by decide),
   by decide⟩

/-! ### An operator repeated -/

theorem returns_from_console (tokens : List Str) (objs : List GeneratedObject)
    (v : Option Validator) (ps : List Str) (c c' : List Str) (r : List GeneratedObject) :
    returns_from ⟨tokens, objs, v, ps, c⟩ r → returns_from ⟨tokens, objs, v, ps, c'⟩ r := by
  have key : ∀ c0, returns_from ⟨tokens, objs, v, ps, c0⟩ r ↔
      returns_from ⟨tokens, objs, v, ps, []⟩ r := by
    intro c0
    have h := fun fuel => parse_loop_console validators fuel tokens objs v ps c0 []
    simp only [List.append_nil] at h
    constructor
    · rintro ⟨fuel, l, hr⟩
      rw [h fuel] at hr
      cases h0 : parse_loop validators fuel ⟨tokens, objs, v, ps, []⟩ with
      | none => rw [h0] at hr; simp at hr
      | some x =>
        rw [h0] at hr
        simp only [Option.map_some', Option.some.injEq, Prod.mk.injEq] at hr
        exact ⟨fuel, x.2, by rw [← hr.1, h0]⟩
    · rintro ⟨fuel, l, hr⟩
      exact ⟨fuel, c0 ++ l, by rw [h fuel, hr]; rfl⟩
  intro h
  exact (key c').2 ((key c).1 h)

theorem repeated_operator_from (ts1 ts2 : List Str) (objs : List GeneratedObject)
    (v : Option Validator) (ps : List Str) (c : List Str) (r : List GeneratedObject)
    (hv : v = none → ps = []) :
    returns_from ⟨ts1 ++ different_operator :: different_operator :: ts2, objs, v, ps, c⟩ r ↔
      returns_from ⟨ts1 ++ different_operator :: ts2, objs, v, ps, c⟩ r := by
  have hskip : ∀ objs' v' ps' c', ps'.length ≠ v'.num_inputs →
      (returns_from ⟨different_operator :: ts2, objs', some v', ps', c'⟩ r ↔
        returns_from ⟨ts2, objs', some v', ps', c'⟩ r) := by
    intro objs' v' ps' c' hne
    rw [returns_from_again _ _ r (iteration_skip_operator ts2 objs' v' ps' c' hne)]
    exact ⟨returns_from_console _ _ _ _ _ _ r, returns_from_console _ _ _ _ _ _ r⟩
  induction ts1 generalizing objs v ps c with
  | nil =>
    simp only [List.nil_append]
    cases v with
    | none =>
      rw [hv rfl, returns_from_again _ _ r (iteration_adopt _ objs [] c),
        returns_from_again _ _ r (iteration_adopt ts2 objs [] c)]
      exact hskip objs different [] c (by simp [different])
    | some v' =>
      by_cases hlen : ps.length = v'.num_inputs
      · rw [returns_from_again _ _ r (iteration_emit_operator _ objs v' ps c hlen),
          returns_from_again _ _ r (iteration_emit_operator ts2 objs v' ps c hlen)]
        exact hskip _ different [] c (by simp [different])
      · rw [returns_from_again _ _ r (iteration_skip_operator _ objs v' ps c hlen),
          returns_from_again _ _ r (iteration_skip_operator ts2 objs v' ps c hlen)]
        exact hskip objs v' ps _ hlen
  | cons t ts1 ih =>
    simp only [List.cons_append]
    by_cases ht : t = different_operator
    · cases v with
      | none =>
        rw [ht, returns_from_again _ _ r (iteration_adopt _ objs ps c),
          returns_from_again _ _ r (iteration_adopt _ objs ps c)]
        exact ih objs (some different) ps c (by simp)
      | some v' =>
        by_cases hlen : ps.length = v'.num_inputs
        · rw [ht, returns_from_again _ _ r (iteration_emit_operator _ objs v' ps c hlen),
            returns_from_again _ _ r (iteration_emit_operator _ objs v' ps c hlen)]
          exact ih _ (some different) [] c (by simp)
        · rw [ht, returns_from_again _ _ r (iteration_skip_operator _ objs v' ps c hlen),
            returns_from_again _ _ r (iteration_skip_operator _ objs v' ps c hlen)]
          exact ih objs (some v') ps _ (by simp)
    · cases v with
      | none =>
        rw [returns_from_returned _ _ r _
            (iteration_invalid_start (t :: _) objs ps c (by simpa using ht)),
          returns_from_returned _ _ r _
            (iteration_invalid_start (t :: _) objs ps c (by simpa using ht))]
      | some v' =>
        rw [returns_from_again _ _ r (iteration_parameter t _ objs v' ps c ht),
          returns_from_again _ _ r (iteration_parameter t _ objs v' ps c ht)]
        exact ih objs (some v') (ps ++ [t]) c (by simp)

theorem parse_returns_iff_returns_from (tokens : List Str) (r : List GeneratedObject) :
    parse_returns tokens r ↔ returns_from (initial_state [] tokens) r := by
  constructor
  · rintro ⟨fuel, console, c, h⟩
    exact returns_from_console tokens [] none [] console [] r ⟨fuel, c, h⟩
  · rintro ⟨fuel, c, h⟩
    exact ⟨fuel, [], c, h⟩

/-- C11: for every non-operator token p, ['!=', '!=', p] returns exactly one
request, `different [p]`; after any well-formed groups, an operator that is
immediately followed by another operator yields no request (its empty group
is logged as skipped), while the well-formed groups that follow are still
emitted, in order; and in any token list, repeating an operator changes
neither whether the call returns nor the requests it returns. -/
theorem consecutive_operators (console : List Str) :
    (∀ p, p ≠ different_operator → ∀ fuel, 4 ≤ fuel →
        parse_annotation_tokens fuel console [different_operator, different_operator, p] =
          some ([different_object p], console ++ [skipping_message different []])) ∧
      (∀ ps qs, (∀ p ∈ ps, p ≠ different_operator) → (∀ q ∈ qs, q ≠ different_operator) →
        qs ≠ [] → ∀ fuel, 2 * (ps.length + qs.length) + 2 ≤ fuel →
        parse_annotation_tokens fuel console
            (different_chain ps ++ different_operator :: different_chain qs) =
          some ((ps ++ qs).map different_object,
            console ++ [skipping_message different []])) ∧
      (∀ ts1 ts2 r,
        parse_returns (ts1 ++ different_operator :: different_operator :: ts2) r ↔
          parse_returns (ts1 ++ different_operator :: ts2) r) := by
  refine ⟨?_, ?_, ?_⟩
  · intro p hp fuel hfuel
    obtain ⟨k, rfl⟩ := Nat.exists_eq_add_of_le hfuel
    have h := parse_empty_group [] [p] (by simp) (by simpa using hp) (by simp) k console
    simpa [different_chain, parse_annotation_tokens, parse_annotation_tokens_in] using h
  · intro ps qs hp hq hne fuel hfuel
    obtain ⟨k, rfl⟩ := Nat.exists_eq_add_of_le hfuel
    exact parse_empty_group ps qs hp hq hne k console
  · intro ts1 ts2 r
    rw [parse_returns_iff_returns_from, parse_returns_iff_returns_from]
    exact repeated_operator_from ts1 ts2 [] none [] [] r (by simp)

/-- Witness of C11: ['!=', '!=', '7'] gives the one request for '7', and
['!=', '1', '!=', '!=', '2'] gives the requests for '1' and '2'. -/
theorem consecutive_operators_witness :
    parse_annotation_tokens 4 [] [different_operator, different_operator, "7".toList] =
        some ([different_object "7".toList], [] ++ [skipping_message different []]) ∧
      parse_annotation_tokens 6 []
          (different_chain ["1".toList] ++ different_operator :: different_chain ["2".toList]) =
        some ((["1".toList] ++ ["2".toList]).map different_object,
          [] ++ [skipping_message different []]) :=
  ⟨(consecutive_operators []).1 "7".toList (by decide) 4 (by decide),
   (consecutive_operators []).2.1 ["1".toList] ["2".toList] (by decide) (by decide) (by decide)
     6 (by decide)⟩

end Robota
